import Mathlib

/-!
Verification of the VI (video interface) filter pipeline of the
angrylion-rdp-plus emulator, shallowly embedded from `src/core/vi.c` and
`src/core/parallel.cpp`.

Machine integers are modelled as `Nat`/`Int`.  C `/` on signed ints is
`Int.tdiv` (truncation toward zero); C `>>` on signed ints is the arithmetic
shift `>>>` on `Int` (floor).  The leaf filter operations (`vi_fetch_filter`,
`divot_filter`, `vi_vl_lerp`, `gamma_filters`) live in `vi/*.c` include files
that are not part of the provided sources; they are modelled from the spec
where needed and clearly marked as such.
-/

/-- Pixel sample `struct ccvg` from vi.c: color with 3-bit coverage. -/
structure Ccvg where
  r : ℕ
  g : ℕ
  b : ℕ
  cvg : ℕ
deriving DecidableEq

/-- The VI register window, one field per register consumed by the core
(`plugin_get_vi_registers`).  Raw 32-bit values; the core masks them itself. -/
structure ViRegs where
  status : ℕ
  origin : ℕ
  width : ℕ
  vCurrent : ℕ
  xScale : ℕ
  yScale : ℕ
  hStartReg : ℕ
  vStartReg : ℕ
  vSync : ℕ
deriving DecidableEq

/-- Decoded `union vi_reg_ctrl` bitfields of VI_STATUS (vi.c lines 58-75). -/
structure ViCtrl where
  type : ℕ
  gammaDither : ℕ
  gammaEnable : ℕ
  divotEnable : ℕ
  vbusClock : ℕ
  serrate : ℕ
  aaMode : ℕ
deriving DecidableEq

/-- Decode the VI_STATUS word into its bitfields. -/
def decodeCtrl (status : ℕ) : ViCtrl :=
  { type := status &&& 3
    gammaDither := (status >>> 2) &&& 1
    gammaEnable := (status >>> 3) &&& 1
    divotEnable := (status >>> 4) &&& 1
    vbusClock := (status >>> 5) &&& 1
    serrate := (status >>> 6) &&& 1
    aaMode := (status >>> 8) &&& 3 }

/-- Cross-frame interlace/blank history kept in statics by vi.c
(`prevvicurrent`, `emucontrolsvicurrent`, `prevserrate`, `oldlowerfield`,
`oldvstart`, `prevwasblank`). -/
structure ViHist where
  prevvicurrent : ℕ
  emucontrolsvicurrent : ℤ
  prevserrate : Bool
  oldlowerfield : ℕ
  oldvstart : ℤ
  prevwasblank : ℕ
deriving DecidableEq

/-- The state installed by `vi_init` (vi.c lines 193-198). -/
def ViHist.init : ViHist :=
  { prevvicurrent := 0
    emucontrolsvicurrent := -1
    prevserrate := false
    oldlowerfield := 0
    oldvstart := 1337
    prevwasblank := 0 }

/-- How `vi_process_start` exits: a fatal `msg_error`, a silent frame skip
(`return 0` before reaching the end of the function), or completion
returning `validh`. -/
inductive StartOutcome where
  | errType
  | errVactive
  | skipVactive
  | skipBlank
  | skipNoFb
  | done (validh : Bool)
deriving DecidableEq

/-- Per-frame geometry derived by `vi_process_start` (the statics written by
it and consumed by `vi_process` / `vi_process_end`). -/
structure ViGeom where
  hres : ℤ
  vres : ℤ
  hStart : ℤ
  vStart : ℤ
  xAdd : ℕ
  xStartInit : ℕ
  yAdd : ℕ
  yStart : ℕ
  vSyncV : ℤ
  ispal : Bool
  ctrl : ViCtrl
  lowerfield : ℕ
  vactivelines : ℤ
  minhpass : ℤ
  maxhpass : ℤ
  linecount : ℕ
  prescalePtr : ℕ
  viWidthLow : ℕ
  frameBuffer : ℕ
  hStartClamped : Bool
  hresClamped : Bool

/-- `hres` clamp of vi.c lines 302-306. -/
def clampHres (hres hstart : ℤ) : ℤ :=
  if hres + hstart > 640 then 640 - hstart else hres

/-- `vres` clamp of vi.c lines 308-312. -/
def clampVres (vres vstart : ℤ) : ℤ :=
  if vres + vstart > 625 then 625 - vstart else vres

/-- Shallow embedding of `vi_process_start` (vi.c lines 201-446, with
`ENABLE_TVFADEOUT` = 0 as in the source, so the lines 349-443 block is
compiled out and `prevwasblank` is never written).  Returns the exit
outcome, the derived geometry and the updated history.  On an early exit
the geometry fields that the original code would not have read are still
computed here; theorems only consult them on the outcomes where the code
defines them. -/
def viProcessStart (r : ViRegs) (hs : ViHist) : StartOutcome × ViGeom × ViHist :=
  let vStart0 : ℤ := ((r.vStartReg >>> 16) &&& 0x3ff : ℕ)
  let hStart0 : ℤ := ((r.hStartReg >>> 16) &&& 0x3ff : ℕ)
  let vEnd : ℤ := (r.vStartReg &&& 0x3ff : ℕ)
  let hEnd : ℤ := (r.hStartReg &&& 0x3ff : ℕ)
  let hres0 : ℤ := hEnd - hStart0
  let vres0 : ℤ := (vEnd - vStart0) >>> 1
  let c := decodeCtrl r.status
  let vSyncV : ℤ := (r.vSync &&& 0x3ff : ℕ)
  let xAdd : ℕ := r.xScale &&& 0xfff
  let hStart1 : ℤ := hStart0 - (if vSyncV > 525 + 25 then 128 else 108)
  let xStart0 : ℕ := (r.xScale >>> 16) &&& 0xfff
  let xStartInit : ℕ := if hStart1 < 0 then xStart0 + xAdd * (-hStart1).toNat else xStart0
  let hres1 : ℤ := if hStart1 < 0 then hres0 + hStart1 else hres0
  let hStart2 : ℤ := if hStart1 < 0 then 0 else hStart1
  let validinterlace : Bool := (c.type &&& 2 ≠ 0) && (c.serrate = 1)
  let emu0 : ℤ :=
    if validinterlace && hs.prevserrate && decide (hs.emucontrolsvicurrent < 0) then
      (if (r.vCurrent &&& 1 : ℕ) ≠ hs.prevvicurrent then 1 else 0)
    else hs.emucontrolsvicurrent
  let lowerfield : ℕ :=
    if validinterlace then
      if emu0 = 1 then (r.vCurrent &&& 1) ^^^ 1
      else if emu0 = 0 then
        (if vStart0 = hs.oldvstart then hs.oldlowerfield ^^^ 1
         else if vStart0 < hs.oldvstart then 1 else 0)
      else 0
    else 0
  let hs1 : ViHist := { hs with oldlowerfield := lowerfield, emucontrolsvicurrent := emu0 }
  let hs2 : ViHist :=
    if validinterlace then
      { hs1 with prevserrate := true, prevvicurrent := r.vCurrent &&& 1, oldvstart := vStart0 }
    else { hs1 with prevserrate := false }
  let lineshifter : ℕ := if c.serrate = 1 then 0 else 1
  let vstartoffset : ℤ := if vSyncV > 525 + 25 then 44 else 34
  let vStart1 : ℤ := Int.tdiv (vStart0 - vstartoffset) 2
  let yStart0 : ℕ := (r.yScale >>> 16) &&& 0xfff
  let yAdd : ℕ := r.yScale &&& 0xfff
  let yStart : ℕ := if vStart1 < 0 then yStart0 + yAdd * (-vStart1).toNat else yStart0
  let vStart2 : ℤ := if vStart1 < 0 then 0 else vStart1
  let hres2 : ℤ := clampHres hres1 hStart2
  let vres2 : ℤ := clampVres vres0 vStart2
  let vactivelines0 : ℤ := vSyncV - vstartoffset
  let vactivelines : ℤ := vactivelines0 >>> lineshifter
  let validh : Bool := hres2 > 0 && hStart2 < 640
  let minhpass : ℤ := if hStart1 < 0 then 0 else 8
  let maxhpass : ℤ := if hres1 + hStart2 > 640 then hres2 else hres2 - 7
  let linecount : ℕ := if c.serrate = 1 then 640 <<< 1 else 640
  let prescalePtr : ℕ :=
    vStart2.toNat * linecount + hStart2.toNat + (if lowerfield = 1 then 640 else 0)
  let viWidthLow : ℕ := r.width &&& 0xfff
  let frameBuffer : ℕ := r.origin &&& 0xffffff
  let geom : ViGeom :=
    { hres := hres2, vres := vres2, hStart := hStart2, vStart := vStart2
      xAdd := xAdd, xStartInit := xStartInit, yAdd := yAdd, yStart := yStart
      vSyncV := vSyncV, ispal := decide (vSyncV > 525 + 25), ctrl := c
      lowerfield := lowerfield
      vactivelines := vactivelines, minhpass := minhpass, maxhpass := maxhpass
      linecount := linecount, prescalePtr := prescalePtr
      viWidthLow := viWidthLow, frameBuffer := frameBuffer
      hStartClamped := decide (hStart1 < 0), hresClamped := decide (hres1 + hStart2 > 640) }
  -- `if (ctrl.type & ~3)` at line 219: `type` is a 2-bit field, so this
  -- check can never fire; kept for faithfulness (on it, the fatal
  -- `msg_error` would stop before the history update at line 275).
  let outcome : StartOutcome :=
    if c.type &&& 0xfffffffc ≠ 0 then .errType
    else if vactivelines0 > 625 then .errVactive
    else if vactivelines0 < 0 then .skipVactive
    else if c.type &&& 2 = 0 ∧ hs.prevwasblank ≠ 0 then .skipBlank
    else if frameBuffer = 0 then .skipNoFb
    else .done validh
  (outcome, geom, if c.type &&& 0xfffffffc ≠ 0 then hs else hs2)

/-- Exit of `vi_process_start_fast` (vi.c lines 699-758). -/
inductive FastOutcome where
  | skip
  | errType
  | ok
deriving DecidableEq

/-- Geometry derived by `vi_process_start_fast`. -/
structure FastGeom where
  hres : ℤ
  vres : ℤ
  xAdd : ℕ
  yAdd : ℕ
  hresRaw : ℤ
  vresRaw : ℤ
  viWidthLow : ℕ
  frameBuffer : ℕ
  ctrl : ViCtrl

/-- Shallow embedding of `vi_process_start_fast` (vi.c lines 699-758).
`hres_raw`/`vres_raw` are computed from the unclamped 12-bit scale fields
exactly as at lines 721-722. -/
def viProcessStartFast (r : ViRegs) : FastOutcome × FastGeom :=
  let vStart0 : ℤ := ((r.vStartReg >>> 16) &&& 0x3ff : ℕ)
  let hStart0 : ℤ := ((r.hStartReg >>> 16) &&& 0x3ff : ℕ)
  let vEnd : ℤ := (r.vStartReg &&& 0x3ff : ℕ)
  let hEnd : ℤ := (r.hStartReg &&& 0x3ff : ℕ)
  let hres : ℤ := hEnd - hStart0
  let vres : ℤ := (vEnd - vStart0) >>> 1
  let xAdd : ℕ := r.xScale &&& 0xfff
  let yAdd : ℕ := r.yScale &&& 0xfff
  let hresRaw : ℤ := (xAdd * hres.toNat / 1024 : ℕ)
  let vresRaw : ℤ := (yAdd * vres.toNat / 1024 : ℕ)
  let viWidthLow : ℕ := r.width &&& 0xfff
  let frameBuffer : ℕ := r.origin &&& 0xffffff
  let c := decodeCtrl r.status
  let g : FastGeom :=
    { hres := hres, vres := vres, xAdd := xAdd, yAdd := yAdd
      hresRaw := hresRaw, vresRaw := vresRaw
      viWidthLow := viWidthLow, frameBuffer := frameBuffer, ctrl := c }
  let outcome : FastOutcome :=
    if hres ≤ 0 ∨ vres ≤ 0 then .skip
    else if hresRaw ≤ 0 ∨ vresRaw ≤ 0 then .skip
    else if r.vCurrent &&& 1 = 1 then .skip
    else if frameBuffer = 0 then .skip
    else if c.type &&& 2 = 0 then .skip
    else if c.type &&& 0xfffffffc ≠ 0 then .errType
    else .ok
  (outcome, g)

/-- The index `y * hres_raw + x` written by `vi_process_fast` into `prescale`
(`uint32_t* dst = prescale + y * hres_raw; ... dst[x] = ...`,
vi.c lines 773 and 822). -/
def fastWriteIndex (g : FastGeom) (y x : ℕ) : ℕ :=
  y * g.hresRaw.toNat + x

/-- `vi_process_fast` writes cell `idx` iff `idx = y * hres_raw + x` for some
scanline `y < vres_raw` and column `x < hres_raw` (loop bounds at vi.c
lines 763, 771, 775). -/
def FastGeom.writesCell (g : FastGeom) (idx : ℕ) : Prop :=
  ∃ y x : ℕ, (y : ℤ) < g.vresRaw ∧ (x : ℤ) < g.hresRaw ∧ idx = fastWriteIndex g y x

/-!  Worker pool (`src/core/parallel.cpp`), modelled as the sequentially
observable state machine of the `Parallel` class: the thread bodies block
between tasks, so the caller-visible effects are the flag test/throw in
`run` (lines 42-55) and the join loop of the destructor (lines 20-40). -/

/-- State of the `Parallel` worker pool: whether it still accepts work, the
published task slot, and one entry per worker thread (`true` = joined). -/
structure Pool where
  acceptWork : Bool
  hasTask : Bool
  threads : List Bool
deriving DecidableEq

/-- `Parallel::run` (parallel.cpp lines 42-55): throws if the pool is
shutting down, otherwise publishes the task, has every worker run
`task(worker_id)` once, and waits for all of them. -/
def Pool.run (p : Pool) (task : ℕ → ℕ) : Except String (Pool × List ℕ) :=
  if p.acceptWork then
    .ok ({ p with hasTask := true }, (List.range p.threads.length).map task)
  else
    .error "Workers are exiting and no longer accept work"

/-- `Parallel::~Parallel` (parallel.cpp lines 20-40): waits, installs a dummy
task if none was ever set, stops accepting work, wakes the workers and joins
every one of them. -/
def Pool.close (p : Pool) : Pool :=
  { acceptWork := false
    hasTask := true
    threads := p.threads.map (fun _ => true) }

/-- The vertical offset `(v_start + oldlowerfield) << ctrl.serrate` that
`vi_process_end` uses to locate the upload buffer (vi.c line 683); it reads
the static `oldlowerfield` as left by `vi_process_start`. -/
def viEndYOffset (g : ViGeom) (hOut : ViHist) : ℤ :=
  (g.vStart + (hOut.oldlowerfield : ℤ)) <<< (if g.ctrl.serrate = 1 then 1 else 0)

/-- The dead `ctrl.type & ~3` check: `type` is a 2-bit field. -/
theorem and_three_and_mask (n : ℕ) : (n &&& 3) &&& 0xfffffffc = 0 := by
  rw [Nat.and_assoc, show (3 &&& 0xfffffffc : ℕ) = 0 from rfl, Nat.and_zero]

theorem clampHres_le (a b : ℤ) : b + clampHres a b ≤ 640 := by
  unfold clampHres
  split <;> omega

theorem clampVres_le (a b : ℤ) : b + clampVres a b ≤ 625 := by
  unfold clampVres
  split <;> omega

/-- C2: for every register state and history, after `vi_process_start`
completes (whether it reports a frame to draw or a skip — i.e. on every
non-fatal outcome), the clamped geometry satisfies
`h_start + hres ≤ PRESCALE_WIDTH` and `v_start + vres ≤ PRESCALE_HEIGHT`. -/
theorem vi_start_geometry_bounds (r : ViRegs) (hs : ViHist)
    (h1 : (viProcessStart r hs).1 ≠ .errType)
    (h2 : (viProcessStart r hs).1 ≠ .errVactive) :
    (viProcessStart r hs).2.1.hStart + (viProcessStart r hs).2.1.hres ≤ 640 ∧
    (viProcessStart r hs).2.1.vStart + (viProcessStart r hs).2.1.vres ≤ 625 :=
  ⟨clampHres_le _ _, clampVres_le _ _⟩

/-- Witness for `vi_start_geometry_bounds`: an NTSC 320x237 frame. -/
def regsNtsc : ViRegs :=
  { status := 2, origin := 0x100000, width := 320, vCurrent := 0
    xScale := 0x200, yScale := 0x400
    hStartReg := (108 <<< 16) ||| 428
    vStartReg := (37 <<< 16) ||| 511
    vSync := 525 }

theorem vi_start_geometry_bounds_witness :
    (viProcessStart regsNtsc ViHist.init).1 ≠ .errType ∧
    (viProcessStart regsNtsc ViHist.init).1 ≠ .errVactive ∧
    ((viProcessStart regsNtsc ViHist.init).2.1.hStart +
        (viProcessStart regsNtsc ViHist.init).2.1.hres ≤ 640 ∧
      (viProcessStart regsNtsc ViHist.init).2.1.vStart +
        (viProcessStart regsNtsc ViHist.init).2.1.vres ≤ 625) :=
  ⟨by decide, by decide,
    vi_start_geometry_bounds regsNtsc ViHist.init (by decide) (by decide)⟩

/-- C10: on every frame that `vi_process_start` completes (it returns
`validh`, so the frame can reach the end stage), the `oldlowerfield`
static it leaves behind equals the `lowerfield` it computed for this very
frame (assignment at vi.c line 275 happens before every `return`), so the
end-stage offset `(v_start + oldlowerfield) << ctrl.serrate` (line 683)
uses the current frame's field. -/
theorem vi_oldlowerfield_current_frame (r : ViRegs) (hs : ViHist) (vh : Bool)
    (h : (viProcessStart r hs).1 = .done vh) :
    (viProcessStart r hs).2.2.oldlowerfield = (viProcessStart r hs).2.1.lowerfield ∧
    viEndYOffset (viProcessStart r hs).2.1 (viProcessStart r hs).2.2 =
      ((viProcessStart r hs).2.1.vStart + ((viProcessStart r hs).2.1.lowerfield : ℤ)) <<<
        (if (viProcessStart r hs).2.1.ctrl.serrate = 1 then 1 else 0) := by
  have h1 : (viProcessStart r hs).2.2.oldlowerfield = (viProcessStart r hs).2.1.lowerfield := by
    dsimp only [viProcessStart, decodeCtrl]
    rw [if_neg (fun hne => hne (and_three_and_mask r.status))]
    split <;> rfl
  refine ⟨h1, ?_⟩
  unfold viEndYOffset
  rw [h1]

theorem vi_oldlowerfield_current_frame_witness :
    (viProcessStart regsNtsc ViHist.init).1 = .done true ∧
    ((viProcessStart regsNtsc ViHist.init).2.2.oldlowerfield =
        (viProcessStart regsNtsc ViHist.init).2.1.lowerfield ∧
      viEndYOffset (viProcessStart regsNtsc ViHist.init).2.1
          (viProcessStart regsNtsc ViHist.init).2.2 =
        ((viProcessStart regsNtsc ViHist.init).2.1.vStart +
            ((viProcessStart regsNtsc ViHist.init).2.1.lowerfield : ℤ)) <<<
          (if (viProcessStart regsNtsc ViHist.init).2.1.ctrl.serrate = 1 then 1 else 0)) :=
  ⟨by decide, vi_oldlowerfield_current_frame regsNtsc ViHist.init true (by decide)⟩

/-- C5 (amended): `vi_process_start` checks `vactivelines` BEFORE the
`>>= lineshifter` shift (vi.c lines 317-322): with
`vstartoffset = 44` (PAL, `v_sync > 550`) or `34` (NTSC), it reports the
fatal `VI_V_SYNC_REG too big` error exactly when the pre-shift value
`v_sync - vstartoffset` exceeds `PRESCALE_HEIGHT` (625), skips the frame
exactly when that pre-shift value is negative, and only afterwards stores
`vactivelines = (v_sync - vstartoffset) >> (serrate ? 0 : 1)`. -/
theorem vi_vactivelines_preshift (r : ViRegs) (hs : ViHist) :
    ((viProcessStart r hs).1 = .errVactive ↔
      ((r.vSync &&& 0x3ff : ℕ) : ℤ) - (if ((r.vSync &&& 0x3ff : ℕ) : ℤ) > 550 then 44 else 34) >
        625) ∧
    ((viProcessStart r hs).1 = .skipVactive ↔
      ((r.vSync &&& 0x3ff : ℕ) : ℤ) - (if ((r.vSync &&& 0x3ff : ℕ) : ℤ) > 550 then 44 else 34) <
        0) ∧
    (viProcessStart r hs).2.1.vactivelines =
      (((r.vSync &&& 0x3ff : ℕ) : ℤ) -
          (if ((r.vSync &&& 0x3ff : ℕ) : ℤ) > 550 then 44 else 34)) >>>
        (if (r.status >>> 6) &&& 1 = 1 then (0 : ℕ) else 1) := by
  dsimp only [viProcessStart, decodeCtrl]
  rw [if_neg (fun hne => hne (and_three_and_mask r.status))]
  refine ⟨?_, ?_, rfl⟩
  · split_ifs <;> simp_all
  · split_ifs <;> (try simp_all) <;> omega

/-- Register state for the C5 counterexample: `v_sync = 700` (PAL offsets,
`serrate = 0`), an otherwise ordinary RGBA5551 frame. -/
def regsVsync700 : ViRegs :=
  { status := 2, origin := 0x100000, width := 320, vCurrent := 0
    xScale := 0x200, yScale := 0x400
    hStartReg := (108 <<< 16) ||| 428
    vStartReg := (37 <<< 16) ||| 511
    vSync := 700 }

/-- C5 counterexample: the claim says the fatal error fires exactly when
`(v_sync - vstartoffset) >> (serrate ? 0 : 1)` exceeds 625.  At
`v_sync = 700`, `serrate = 0` the shifted value is `(700 - 44) >> 1 = 328 ≤
625`, yet the code reports the fatal error, because vi.c line 318 checks the
value BEFORE the shift (656 > 625). -/
theorem vi_vactivelines_check_cex :
    (viProcessStart regsVsync700 ViHist.init).1 = .errVactive ∧
    ¬((((700 : ℤ) - 44) >>> (1 : ℕ)) > 625) := by
  constructor
  · decide
  · decide

/-- Blank-frame register state (`ctrl.type = 0`) with a nonzero origin and
valid horizontal geometry, for C3. -/
def regsBlank : ViRegs :=
  { status := 0, origin := 0x100000, width := 320, vCurrent := 0
    xScale := 0x200, yScale := 0x400
    hStartReg := (108 <<< 16) ||| 428
    vStartReg := (37 <<< 16) ||| 511
    vSync := 525 }

/-- C3 (code bug): with `ENABLE_TVFADEOUT = 0` (as in this source) the
`prevwasblank` static is initialized to 0 and never assigned again — the
only assignments (vi.c lines 356/360) are compiled out — so the
blank-after-blank skip at line 334 can never fire.  Concretely: two
successive blank frames (`ctrl.type = 0`) with a nonzero `VI_ORIGIN` both
make `vi_process_start` return `validh = 1`, so the second blank
`vi_update` still runs `vi_process` and `screen_upload` instead of
returning early as the claim (and the dead check) intend. -/
theorem vi_blank_skip_dead :
    (viProcessStart regsBlank ViHist.init).1 = .done true ∧
    (viProcessStart regsBlank ViHist.init).2.2.prevwasblank = 0 ∧
    (viProcessStart regsBlank (viProcessStart regsBlank ViHist.init).2.2).1 = .done true ∧
    (viProcessStart regsBlank (viProcessStart regsBlank ViHist.init).2.2).2.2.prevwasblank = 0 := by
  refine ⟨by decide, by decide, by decide, by decide⟩

/-- C8: calling `run` on the pool after `close` has begun (the pool no
longer accepts work) raises the error instead of executing the task
(parallel.cpp lines 44-46), and `close` leaves every worker thread joined
(the join loop at lines 34-36). -/
theorem pool_run_after_close_errors_and_joins (p : Pool) (task : ℕ → ℕ) :
    (p.close.run task) = .error "Workers are exiting and no longer accept work" ∧
    p.close.threads.all (fun j => j) = true := by
  constructor
  · rfl
  · simp [Pool.close, List.all_eq_true]

/-- Register state for the C9 overflow: maximal 12-bit scale fields and
maximal active window. -/
def regsFastOverflow : ViRegs :=
  { status := 2, origin := 0x100000, width := 320, vCurrent := 0
    xScale := 0xfff, yScale := 0xfff
    hStartReg := 1023, vStartReg := 1022
    vSync := 525 }

/-- C9 (code bug): `vi_process_start_fast` accepts this register state
(`hres_raw = 4095*1023/1024 = 4091`, `vres_raw = 4095*511/1024 = 2043`,
even field, nonzero origin, type 2), and `vi_process_fast` then writes
cell `y*hres_raw + x` for `y = 2042, x = 4090`, i.e. index 8357912, far
beyond the prescale buffer's `PRESCALE_WIDTH * PRESCALE_HEIGHT = 400000`
entries — an out-of-bounds write, contradicting the claimed bound. -/
theorem vi_fast_prescale_overflow :
    (viProcessStartFast regsFastOverflow).1 = .ok ∧
    (viProcessStartFast regsFastOverflow).2.hresRaw = 4091 ∧
    (viProcessStartFast regsFastOverflow).2.vresRaw = 2043 ∧
    (viProcessStartFast regsFastOverflow).2.writesCell 8357912 ∧
    640 * 625 ≤ 8357912 := by
  refine ⟨by decide, by decide, by decide, ⟨2042, 4090, by decide, by decide, by decide⟩, by decide⟩

/-! ## The normal-path filter pipeline `vi_process` (vi.c lines 448-665)

The loop structure, cache-marker logic and prescale write pattern are
embedded from vi.c.  The leaf operations live in `vi/*.c` include files that
are not part of the provided sources and are modelled from the spec (each
is marked).  The per-pixel source position is `x_start = x_start_init +
i * x_add` (the code increments `x_start` by `x_add` each column). -/

/-- Modelled from the spec: `vi_vl_lerp(dst, src, frac)` is
`dst = dst + ((src - dst) * frac) >> 5` on each of R, G, B (`>>` is an
arithmetic shift), `frac ∈ [0,31]`; coverage keeps `dst`'s. -/
def viVlLerp (dst src : Ccvg) (frac : ℕ) : Ccvg :=
  { r := ((dst.r : ℤ) + ((((src.r : ℤ) - (dst.r : ℤ)) * frac) >>> (5 : ℕ))).toNat
    g := ((dst.g : ℤ) + ((((src.g : ℤ) - (dst.g : ℤ)) * frac) >>> (5 : ℕ))).toNat
    b := ((dst.b : ℤ) + ((((src.b : ℤ) - (dst.b : ℤ)) * frac) >>> (5 : ℕ))).toNat
    cvg := dst.cvg }

/-- Per-channel median of three. -/
def med3 (a b c : ℕ) : ℕ := max (min a b) (min (max a b) c)

/-- Modelled from the spec: `divot_filter(out, center, left, right)` is "a
3-tap median-like filter on three consecutive AA samples"; we take the
per-channel median, keeping the center's coverage.  `vi.c` calls it as
`divot_filter(&dst, cache[x], cache[x-1], cache[x+1])`. -/
def divotFilter (ct l rr : Ccvg) : Ccvg :=
  { r := med3 ct.r l.r rr.r, g := med3 ct.g l.g rr.g, b := med3 ct.b l.b rr.b
    cvg := ct.cvg }

/-- Modelled from the spec: the gamma table is "a precomputed sqrt-based LUT
of 256 entries". -/
def gammaLut (v : ℕ) : ℕ := Nat.sqrt (256 * (v % 256))

/-- Modelled from the spec: `gamma_filters(r, g, b, ctrl)`: "if
`gamma_dither_enable`, apply a ±1 dither derived from a process-wide PRNG;
if `gamma_enable`, look up each channel through a precomputed sqrt-based
LUT".  The PRNG (`irand`, not in the provided sources) is modelled as a
counter state drawn once per pixel, the draw being `state % 3 - 1 ∈ {-1,0,1}`,
with channels clamped to `[0, 255]`; the state advances exactly when the
dither is enabled. -/
def gammaFilters (c : ViCtrl) (r g b : ℕ) (st : ℕ) : (ℕ × ℕ × ℕ) × ℕ :=
  let dith := fun v : ℕ => min 255 (((v : ℤ) + ((st % 3 : ℕ) : ℤ) - 1).toNat)
  let r1 := if c.gammaDither = 1 then dith r else r
  let g1 := if c.gammaDither = 1 then dith g else g
  let b1 := if c.gammaDither = 1 then dith b else b
  let st1 := if c.gammaDither = 1 then st + 1 else st
  let app := fun v : ℕ => if c.gammaEnable = 1 then gammaLut v else v
  ((app r1, app g1, app b1), st1)

/-- Modelled from the spec: `vi_fetch_filter_ptr(&out, frame_buffer, x,
ctrl, vi_width_low, fetchbugstate)` produces a `ccvg` sample for source
column `x` (§4.5).  The spec gives no arithmetic, so it is modelled as a
RDRAM lookup at `frame_buffer + x`; §4.2 step 3 implies the sample depends
on the fetch-bug state, which the model mixes into the red channel.
(`vi_width_low` enters only through the row base `pixels = width * prevy`,
which the caller already folded into `x`.) -/
def fetchFilter (rdram : ℤ → ℕ) (fb : ℕ) (x : ℤ) (fbs : ℕ) : Ccvg :=
  let v := rdram ((fb : ℤ) + x)
  { r := (v + 16 * fbs) % 256, g := (v + 1) % 256, b := (v + 2) % 256, cvg := 7 }

/-- One scanline cache (`viaa_cache`, `viaa_cache_next`, `divot_cache`,
`divot_cache_next`): its marker, its contents, and — instrumentation for
the read/fetch discipline — which entries have ever been stored by this
worker (the C arrays are uninitialized locals, so `data` below an
un-stored index is the arbitrary initial contents). -/
structure VCache where
  marker : ℤ
  data : ℤ → Ccvg
  fet : ℤ → Bool

/-- Store one fetched/filtered sample into a cache entry. -/
def VCache.fetch1 (c : VCache) (k : ℤ) (v : Ccvg) : VCache :=
  { marker := c.marker
    data := fun i => if i = k then v else c.data i
    fet := fun i => if i = k then true else c.fet i }

/-- A marker assignment `cache_marker = k`; the Boolean records whether the
marker did not decrease. -/
def VCache.bump (c : VCache) (k : ℤ) : VCache × Bool :=
  ({ c with marker := k }, decide (c.marker ≤ k))

/-- A cache read `cache[k]`; the Boolean records the discipline that the
entry was stored by a fetch and that the marker has been raised to at
least `k`. -/
def VCache.readC (c : VCache) (k : ℤ) : Ccvg × Bool :=
  (c.data k, c.fet k && decide (k ≤ c.marker))

/-- A prescale write `d[i] = val`, with the gamma-stage channels logged. -/
structure PixWrite where
  idx : ℕ
  val : ℕ
  pr : ℕ
  pg : ℕ
  pb : ℕ
deriving DecidableEq

/-- Frame-constant context for `vi_process`, taken from the statics that
`vi_process_start` derived. -/
structure FrameCtx where
  rdram : ℤ → ℕ
  fb : ℕ
  viWidth : ℕ
  xAdd : ℕ
  xStartInit : ℕ
  yAdd : ℕ
  yStart : ℕ
  hresN : ℕ
  vresN : ℕ
  ctrl : ViCtrl
  prescalePtr : ℕ
  linecount : ℕ
  minhpass : ℤ
  maxhpass : ℤ

/-- Build the `vi_process` context from the geometry of `vi_process_start`
(`hres`/`vres` enter the `for` loops as `i < hres`, `j < vres`, hence
`.toNat`). -/
def mkFrameCtx (g : ViGeom) (rdram : ℤ → ℕ) : FrameCtx :=
  { rdram := rdram, fb := g.frameBuffer, viWidth := g.viWidthLow
    xAdd := g.xAdd, xStartInit := g.xStartInit, yAdd := g.yAdd, yStart := g.yStart
    hresN := g.hres.toNat, vresN := g.vres.toNat, ctrl := g.ctrl
    prescalePtr := g.prescalePtr, linecount := g.linecount
    minhpass := g.minhpass, maxhpass := g.maxhpass }

/-- The sample the current-row AA cache holds at index `k`: cache index
`line_x + 1` holds the fetch of source column `pixels + line_x`
(vi.c 507-534). -/
def fvCur (F : FrameCtx) (pixels : ℕ) : ℤ → Ccvg :=
  fun k => fetchFilter F.rdram F.fb ((pixels : ℤ) + k - 1) 0

/-- The sample the next-row AA cache holds at index `k` (fetched with the
fetch-bug state, vi.c 550-567). -/
def fvNext (F : FrameCtx) (nextpixels fbs : ℕ) : ℤ → Ccvg :=
  fun k => fetchFilter F.rdram F.fb ((nextpixels : ℤ) + k - 1) fbs

/-- The divot cache entry at index `k` in terms of the AA samples
(vi.c 585-586: `divot_filter(&divot_cache[x], viaa[x], viaa[x-1],
viaa[x+1])`). -/
def canonDiv (fv : ℤ → Ccvg) : ℤ → Ccvg :=
  fun k => divotFilter (fv k) (fv (k - 1)) (fv (k + 1))

/-- The three-tap AA fetch block (vi.c 531-548 for the current row,
550-567 for the next row), at `(prev, line, next) = (lx0, lx0+1, lx0+2)`
cache indices (post-increment values). -/
def aaFetchBlock (fv : ℤ → Ccvg) (lx0 : ℤ) (c : VCache) : VCache × Bool :=
  if lx0 > c.marker then
    (((c.fetch1 lx0 (fv lx0)).fetch1 (lx0 + 1) (fv (lx0 + 1))).fetch1 (lx0 + 2)
        (fv (lx0 + 2))).bump (lx0 + 2)
  else if lx0 + 1 > c.marker then
    ((c.fetch1 (lx0 + 1) (fv (lx0 + 1))).fetch1 (lx0 + 2) (fv (lx0 + 2))).bump (lx0 + 2)
  else if lx0 + 2 > c.marker then
    (c.fetch1 (lx0 + 2) (fv (lx0 + 2))).bump (lx0 + 2)
  else (c, true)

/-- The far-column fetch used when the divot filter is on (vi.c 571-581),
at cache index `far = lx0 + 3`. -/
def farFetchBlock (fv : ℤ → Ccvg) (lx0 : ℤ) (c : VCache) : VCache × Bool :=
  if lx0 + 3 > c.marker then (c.fetch1 (lx0 + 3) (fv (lx0 + 3))).bump (lx0 + 3)
  else (c, true)

/-- The divot-cache build block (vi.c 583-593 current row, 595-605 next
row): reads the AA cache `s`, writes the divot cache `d`. -/
def divotBlock (s : VCache) (lx0 : ℤ) (d : VCache) : VCache × Bool :=
  if lx0 + 1 > d.marker then
    let r1 := s.readC (lx0 + 1)
    let r0 := s.readC lx0
    let r2 := s.readC (lx0 + 2)
    let r3 := s.readC (lx0 + 3)
    let d1 :=
      (d.fetch1 (lx0 + 1) (divotFilter r1.1 r0.1 r2.1)).fetch1 (lx0 + 2)
        (divotFilter r2.1 r1.1 r3.1)
    ((d1.bump (lx0 + 2)).1, r1.2 && r0.2 && r2.2 && r3.2 && (d1.bump (lx0 + 2)).2)
  else if lx0 + 2 > d.marker then
    let r1 := s.readC (lx0 + 1)
    let r2 := s.readC (lx0 + 2)
    let r3 := s.readC (lx0 + 3)
    let d1 := d.fetch1 (lx0 + 2) (divotFilter r2.1 r1.1 r3.1)
    ((d1.bump (lx0 + 2)).1, r1.2 && r2.2 && r3.2 && (d1.bump (lx0 + 2)).2)
  else (d, true)

/-- Mutable state of one `vi_process` invocation: the four scanline caches,
the process-wide PRNG state (shared across workers), the accumulated
read/fetch-discipline flag, and the prescale writes in program order. -/
structure RowState where
  va : VCache
  vaN : VCache
  dv : VCache
  dvN : VCache
  gst : ℕ
  ok : Bool
  writes : List PixWrite

/-- `x_start` at column `i`: the code starts at `x_start_init` and adds
`x_add` per column (vi.c 485, 505). -/
def pixX (F : FrameCtx) (i : ℕ) : ℕ := F.xStartInit + i * F.xAdd

/-- `line_x = x_start >> 10` before the `++` block (vi.c 507). -/
def pixLx0 (F : FrameCtx) (i : ℕ) : ℤ := ((pixX F i >>> 10 : ℕ) : ℤ)

/-- `xfrac = (x_start >> 5) & 0x1f` (vi.c 527). -/
def pixXfrac (F : FrameCtx) (i : ℕ) : ℕ := (pixX F i >>> 5) % 32

/-- `lerping = ctrl.aa_mode != VI_AA_REPLICATE && (xfrac || yfrac)`
(vi.c 529). -/
def pixLerp (F : FrameCtx) (yfrac i : ℕ) : Bool :=
  (F.ctrl.aaMode ≠ 3) && (pixXfrac F i ≠ 0 || yfrac ≠ 0)

/-- The cache part of one column iteration: the AA three-tap blocks for
both rows (vi.c 531-567), then — when the divot filter is on — the far
fetches and the divot-cache builds (vi.c 569-605).  Returns
`(viaa, divot, viaa_next, divot_next, ok)`. -/
def pixelCaches (F : FrameCtx) (pixels nextpixels fbs : ℕ) (lx0 : ℤ) (s : RowState) :
    VCache × VCache × VCache × VCache × Bool :=
  let A := aaFetchBlock (fvCur F pixels) lx0 s.va
  let B := aaFetchBlock (fvNext F nextpixels fbs) lx0 s.vaN
  if F.ctrl.divotEnable = 1 then
    let A2 := farFetchBlock (fvCur F pixels) lx0 A.1
    let B2 := farFetchBlock (fvNext F nextpixels fbs) lx0 B.1
    let D := divotBlock A2.1 lx0 s.dv
    let DN := divotBlock B2.1 lx0 s.dvN
    (A2.1, D.1, B2.1, DN.1, A.2 && B.2 && A2.2 && B2.2 && D.2 && DN.2)
  else (A.1, s.dv, B.1, s.dvN, A.2 && B.2)

/-- One iteration of the inner column loop (vi.c 505-644) at column `i`. -/
def pixelStep (F : FrameCtx) (pixels nextpixels fbs yfrac dbase : ℕ) (i : ℕ)
    (s : RowState) : RowState :=
  let lx0 : ℤ := pixLx0 F i
  let xfrac : ℕ := pixXfrac F i
  let lerping : Bool := pixLerp F yfrac i
  let C := pixelCaches F pixels nextpixels fbs lx0 s
  let va2 := C.1
  let dv1 := C.2.1
  let vaN2 := C.2.2.1
  let dvN1 := C.2.2.2.1
  let R0 := if F.ctrl.divotEnable = 1 then dv1.readC (lx0 + 1) else va2.readC (lx0 + 1)
  let RL :=
    if lerping then
      let rn := if F.ctrl.divotEnable = 1 then dv1.readC (lx0 + 2) else va2.readC (lx0 + 2)
      let rs := if F.ctrl.divotEnable = 1 then dvN1.readC (lx0 + 1) else vaN2.readC (lx0 + 1)
      let rsn := if F.ctrl.divotEnable = 1 then dvN1.readC (lx0 + 2) else vaN2.readC (lx0 + 2)
      (viVlLerp (viVlLerp R0.1 rs.1 yfrac) (viVlLerp rn.1 rsn.1 yfrac) xfrac,
        rn.2 && rs.2 && rsn.2)
    else (R0.1, true)
  let rgbg := gammaFilters F.ctrl RL.1.r RL.1.g RL.1.b s.gst
  let val : ℕ :=
    if F.minhpass ≤ (i : ℤ) ∧ (i : ℤ) < F.maxhpass then
      (rgbg.1.1 <<< 16) ||| (rgbg.1.2.1 <<< 8) ||| rgbg.1.2.2
    else 0
  { va := va2, vaN := vaN2, dv := dv1, dvN := dvN1
    gst := rgbg.2
    ok := s.ok && C.2.2.2.2 && R0.2 && RL.2
    writes := s.writes ++ [⟨dbase + i, val, rgbg.1.1, rgbg.1.2.1, rgbg.1.2.2⟩] }

/-- The inner column loop, `for i in [0, hres)`. -/
def rowLoop (F : FrameCtx) (pixels nextpixels fbs yfrac dbase : ℕ)
    (s : RowState) : RowState :=
  (List.range F.hresN).foldl (fun st i => pixelStep F pixels nextpixels fbs yfrac dbase i st) s

/-- Worker-local loop state: the scanline state plus `fetchbugstate` and
the one-shot `cache_init` flag. -/
structure FrameState where
  row : RowState
  fbs : ℕ
  cacheInit : Bool

/-- `cache_marker_init = (x_start_init >> 10) - 1` (vi.c 454). -/
def cmInit (F : FrameCtx) : ℤ := ((F.xStartInit >>> 10 : ℕ) : ℤ) - 1

/-- The `fetchbugstate` update of vi.c 500-503, entering scanline `j`. -/
def rowFbs (F : FrameCtx) (b j : ℕ) : ℕ :=
  if (F.yStart + j * F.yAdd) >>> 10 = (F.yStart + (j + 1) * F.yAdd) >>> 10 then 2
  else b >>> 1

/-- One iteration of the scanline loop (vi.c 484-664) at scanline `j`:
reset the cache markers (divot markers only when the divot filter is on,
vi.c 490-492), update `fetchbugstate`, run the column loop, then perform
the one-shot cache swap when `y_add == 0x400` (vi.c 646-663). -/
def frameRowStep (F : FrameCtx) (fs : FrameState) (j : ℕ) : FrameState :=
  let curry : ℕ := F.yStart + j * F.yAdd
  let prevy : ℕ := curry >>> 10
  let s0 := fs.row
  let s1 : RowState :=
    { s0 with
      va := { s0.va with marker := cmInit F }
      vaN := { s0.vaN with marker := cmInit F }
      dv := if F.ctrl.divotEnable = 1 then { s0.dv with marker := cmInit F } else s0.dv
      dvN := if F.ctrl.divotEnable = 1 then { s0.dvN with marker := cmInit F } else s0.dvN }
  let yfrac : ℕ := (curry >>> 5) % 32
  let pixels : ℕ := F.viWidth * prevy
  let nextpixels : ℕ := F.viWidth + pixels
  let fbs1 : ℕ := rowFbs F fs.fbs j
  let dbase : ℕ := F.prescalePtr + F.linecount * j
  let s2 := rowLoop F pixels nextpixels fbs1 yfrac dbase s1
  if fs.cacheInit = false ∧ F.yAdd = 0x400 then
    let s3 : RowState :=
      { s2 with
        va := s2.vaN
        vaN := { s2.va with marker := cmInit F }
        dv := if F.ctrl.divotEnable = 1 then s2.dvN else s2.dv
        dvN := if F.ctrl.divotEnable = 1 then { s2.dv with marker := cmInit F } else s2.dvN }
    { row := s3, fbs := fbs1, cacheInit := true }
  else { row := s2, fbs := fbs1, cacheInit := fs.cacheInit }

/-- Run the scanline loop over a given list of scanlines. -/
def viProcessRows (F : FrameCtx) (js : List ℕ) (fs0 : FrameState) : FrameState :=
  js.foldl (frameRowStep F) fs0

/-- The state a `vi_process` invocation starts from: markers/`fetchbugstate`
/`cache_init` as the local declarations initialize them, the cache ARRAYS
uninitialized (arbitrary contents `d0`, nothing stored), the process-wide
PRNG at `g0`. -/
def initFrameState (d0 : ℤ → Ccvg) (g0 : ℕ) : FrameState :=
  { row :=
      { va := ⟨0, d0, fun _ => false⟩, vaN := ⟨0, d0, fun _ => false⟩
        dv := ⟨0, d0, fun _ => false⟩, dvN := ⟨0, d0, fun _ => false⟩
        gst := g0, ok := true, writes := [] }
    fbs := 0, cacheInit := false }

/-- `vi_process` with `num_workers == 1`: scanlines `0, 1, ..., vres-1`. -/
def viProcessSerial (F : FrameCtx) (d0 : ℤ → Ccvg) (g0 : ℕ) : FrameState :=
  viProcessRows F (List.range F.vresN) (initFrameState d0 g0)

/-- The scanlines of worker `w` out of `n`: `j = w, w + n, w + 2n, ...`
(vi.c 479-484), i.e. the `j < vres` with `j % n = w` in increasing order. -/
def stridedRows (vres w n : ℕ) : List ℕ :=
  (List.range vres).filter (fun j => j % n = w)

/-- `vi_process` under `parallel_run` with `n` workers: every worker has
fresh local caches/`fetchbugstate`/`cache_init`, while the prescale writes
and the PRNG state are process-wide.  The workers race on the PRNG; this
models the admissible schedule in which worker 0 finishes before worker 1
starts, and so on (with the gamma dither disabled the outcome is the same
under every schedule, because the PRNG is then never touched). -/
def viProcessParallel (F : FrameCtx) (n : ℕ) (d0 : ℤ → Ccvg) (g0 : ℕ) :
    List PixWrite × ℕ :=
  (List.range n).foldl
    (fun acc w =>
      let fs := viProcessRows F (stridedRows F.vresN w n) (initFrameState d0 acc.2)
      (acc.1 ++ fs.row.writes, fs.row.gst))
    ([], g0)

/-- Apply a list of prescale writes (in order) to a buffer. -/
def applyWrites (B : ℕ → ℕ) (L : List PixWrite) : ℕ → ℕ :=
  L.foldl (fun b w => fun idx => if idx = w.idx then w.val else b idx) B

/-- Cache-free reference value of the pixel pipeline at column `i`: the
color the caches are guaranteed to deliver (fetch → divot → bilerp →
gamma), together with the advanced PRNG state. -/
def refPixel (F : FrameCtx) (pixels nextpixels fbs yfrac i gst : ℕ) : (ℕ × ℕ × ℕ) × ℕ :=
  let lx0 : ℤ := pixLx0 F i
  let xfrac : ℕ := pixXfrac F i
  let lerping : Bool := pixLerp F yfrac i
  let cSel : ℤ → Ccvg := fun k =>
    if F.ctrl.divotEnable = 1 then canonDiv (fvCur F pixels) k else fvCur F pixels k
  let nSel : ℤ → Ccvg := fun k =>
    if F.ctrl.divotEnable = 1 then canonDiv (fvNext F nextpixels fbs) k
    else fvNext F nextpixels fbs k
  let color1 :=
    if lerping then
      viVlLerp (viVlLerp (cSel (lx0 + 1)) (nSel (lx0 + 1)) yfrac)
        (viVlLerp (cSel (lx0 + 2)) (nSel (lx0 + 2)) yfrac) xfrac
    else cSel (lx0 + 1)
  gammaFilters F.ctrl color1.r color1.g color1.b gst

/-- The value written to the prescale cell of column `i` (vi.c 640-643):
the packed color inside `[minhpass, maxhpass)`, 0 outside. -/
def refVal (F : FrameCtx) (i : ℕ) (rgb : ℕ × ℕ × ℕ) : ℕ :=
  if F.minhpass ≤ (i : ℤ) ∧ (i : ℤ) < F.maxhpass then
    (rgb.1 <<< 16) ||| (rgb.2.1 <<< 8) ||| rgb.2.2
  else 0

/-- Reference column step: append the column's write, advance the PRNG. -/
def refRowStep (F : FrameCtx) (pixels nextpixels fbs yfrac dbase : ℕ)
    (acc : List PixWrite × ℕ) (i : ℕ) : List PixWrite × ℕ :=
  let pg := refPixel F pixels nextpixels fbs yfrac i acc.2
  (acc.1 ++ [⟨dbase + i, refVal F i pg.1, pg.1.1, pg.1.2.1, pg.1.2.2⟩], pg.2)

/-- Cache-free reference scanline: all `hres` writes of one output row. -/
def refRow (F : FrameCtx) (pixels nextpixels fbs yfrac dbase g0 : ℕ) : List PixWrite × ℕ :=
  (List.range F.hresN).foldl (refRowStep F pixels nextpixels fbs yfrac dbase) ([], g0)

/-- Reference scanline at row index `j` (with the row's derived bases). -/
def refRowOfJ (F : FrameCtx) (j fbs g0 : ℕ) : List PixWrite × ℕ :=
  refRow F (F.viWidth * ((F.yStart + j * F.yAdd) >>> 10))
    (F.viWidth + F.viWidth * ((F.yStart + j * F.yAdd) >>> 10)) fbs
    (((F.yStart + j * F.yAdd) >>> 5) % 32) (F.prescalePtr + F.linecount * j) g0

/-- Reference multi-row step: thread `fetchbugstate` and the PRNG. -/
def refRowsStep (F : FrameCtx) (acc : List PixWrite × ℕ × ℕ) (j : ℕ) :
    List PixWrite × ℕ × ℕ :=
  let fbs1 := rowFbs F acc.2.1 j
  let rw := refRowOfJ F j fbs1 acc.2.2
  (acc.1 ++ rw.1, fbs1, rw.2)

/-- Cache-free reference of `vi_process` over a list of scanlines:
`(writes, final fetchbugstate, final PRNG state)`. -/
def refRows (F : FrameCtx) (js : List ℕ) (fbs g0 : ℕ) : List PixWrite × ℕ × ℕ :=
  js.foldl (refRowsStep F) ([], fbs, g0)

/-! ### The cache discipline invariant -/

/-- Between the column-loop iterations, every cache entry from the current
read window base `lo` up to the marker has been stored by a fetch this
scanline, and holds the canonical (cache-free) sample for its index. -/
def InvC (lo : ℤ) (canon : ℤ → Ccvg) (c : VCache) : Prop :=
  ∀ k : ℤ, lo ≤ k → k ≤ c.marker → c.fet k = true ∧ c.data k = canon k

theorem InvC.mono {lo lo' : ℤ} {canon : ℤ → Ccvg} {c : VCache} (h : lo ≤ lo')
    (hI : InvC lo canon c) : InvC lo' canon c :=
  fun k h1 h2 => hI k (le_trans h h1) h2

theorem readC_spec {c : VCache} {lo : ℤ} {canon : ℤ → Ccvg} {k : ℤ}
    (h : InvC lo canon c) (h1 : lo ≤ k) (h2 : k ≤ c.marker) :
    c.readC k = (canon k, true) := by
  obtain ⟨hf, hd⟩ := h k h1 h2
  simp [VCache.readC, hf, hd, h2]

theorem aaFetchBlock_spec (fv : ℤ → Ccvg) (lx0 : ℤ) (c : VCache)
    (h : InvC lx0 fv c) :
    (aaFetchBlock fv lx0 c).2 = true ∧
    InvC lx0 fv (aaFetchBlock fv lx0 c).1 ∧
    lx0 + 2 ≤ (aaFetchBlock fv lx0 c).1.marker := by
  have e21 : (lx0 : ℤ) + 2 ≠ lx0 + 1 := by omega
  have e20 : (lx0 : ℤ) + 2 ≠ lx0 := by omega
  have e12 : (lx0 : ℤ) + 1 ≠ lx0 + 2 := by omega
  have e10 : (lx0 : ℤ) + 1 ≠ lx0 := by omega
  have e02 : (lx0 : ℤ) ≠ lx0 + 2 := by omega
  have e01 : (lx0 : ℤ) ≠ lx0 + 1 := by omega
  unfold aaFetchBlock
  split_ifs with h1 h2 h3
  · refine ⟨?_, ?_, ?_⟩
    · simp only [VCache.bump, VCache.fetch1, decide_eq_true_eq]
      omega
    · intro k hk1 hk2
      simp only [VCache.bump, VCache.fetch1] at hk2 ⊢
      by_cases hka : k = lx0 + 2
      · simp [hka]
      · by_cases hkb : k = lx0 + 1
        · simp [hkb, e12]
        · have hkc : k = lx0 := by omega
          simp [hkc, e02, e01]
    · simp [VCache.bump, VCache.fetch1]
  · refine ⟨?_, ?_, ?_⟩
    · simp only [VCache.bump, VCache.fetch1, decide_eq_true_eq]
      omega
    · intro k hk1 hk2
      simp only [VCache.bump, VCache.fetch1] at hk2 ⊢
      by_cases hka : k = lx0 + 2
      · simp [hka]
      · by_cases hkb : k = lx0 + 1
        · simp [hkb, e12]
        · have hkc : k = lx0 := by omega
          obtain ⟨hf, hd⟩ := h lx0 (le_refl _) (by omega)
          simp [hkc, e02, e01, hf, hd]
    · simp [VCache.bump, VCache.fetch1]
  · refine ⟨?_, ?_, ?_⟩
    · simp only [VCache.bump, VCache.fetch1, decide_eq_true_eq]
      omega
    · intro k hk1 hk2
      simp only [VCache.bump, VCache.fetch1] at hk2 ⊢
      by_cases hka : k = lx0 + 2
      · simp [hka]
      · obtain ⟨hf, hd⟩ := h k hk1 (by omega)
        simp [hka, hf, hd]
    · simp [VCache.bump, VCache.fetch1]
  · exact ⟨rfl, h, show lx0 + 2 ≤ c.marker by omega⟩

theorem farFetchBlock_spec (fv : ℤ → Ccvg) (lx0 : ℤ) (c : VCache)
    (h : InvC lx0 fv c) (hm : lx0 + 2 ≤ c.marker) :
    (farFetchBlock fv lx0 c).2 = true ∧
    InvC lx0 fv (farFetchBlock fv lx0 c).1 ∧
    lx0 + 3 ≤ (farFetchBlock fv lx0 c).1.marker := by
  unfold farFetchBlock
  split_ifs with h1
  · refine ⟨?_, ?_, ?_⟩
    · simp only [VCache.bump, VCache.fetch1, decide_eq_true_eq]
      omega
    · intro k hk1 hk2
      simp only [VCache.bump, VCache.fetch1] at hk2 ⊢
      by_cases hka : k = lx0 + 3
      · simp [hka]
      · obtain ⟨hf, hd⟩ := h k hk1 (by omega)
        simp [hka, hf, hd]
    · simp [VCache.bump, VCache.fetch1]
  · exact ⟨rfl, h, show lx0 + 3 ≤ c.marker by omega⟩

theorem canonDiv_succ (fv : ℤ → Ccvg) (k : ℤ) :
    canonDiv fv (k + 1) = divotFilter (fv (k + 1)) (fv k) (fv (k + 2)) := by
  unfold canonDiv
  rw [show (k : ℤ) + 1 - 1 = k by ring, show (k : ℤ) + 1 + 1 = k + 2 by ring]

theorem divotBlock_spec (sC : VCache) (lx0 : ℤ) (fvS : ℤ → Ccvg) (d : VCache)
    (hs : InvC lx0 fvS sC) (hm : lx0 + 3 ≤ sC.marker)
    (hd : InvC (lx0 + 1) (canonDiv fvS) d) :
    (divotBlock sC lx0 d).2 = true ∧
    InvC (lx0 + 1) (canonDiv fvS) (divotBlock sC lx0 d).1 ∧
    lx0 + 2 ≤ (divotBlock sC lx0 d).1.marker := by
  have r0 := readC_spec hs (show lx0 ≤ lx0 by omega) (by omega)
  have r1 := readC_spec hs (show lx0 ≤ lx0 + 1 by omega) (by omega)
  have r2 := readC_spec hs (show lx0 ≤ lx0 + 2 by omega) (by omega)
  have r3 := readC_spec hs (show lx0 ≤ lx0 + 3 by omega) (by omega)
  have cd1 := canonDiv_succ fvS lx0
  have cd2 : canonDiv fvS (lx0 + 2) =
      divotFilter (fvS (lx0 + 2)) (fvS (lx0 + 1)) (fvS (lx0 + 3)) := by
    have h := canonDiv_succ fvS (lx0 + 1)
    rw [show (lx0 : ℤ) + 1 + 1 = lx0 + 2 by ring] at h
    rw [h, show (lx0 : ℤ) + 1 + 2 = lx0 + 3 by ring]
  have e12 : (lx0 : ℤ) + 1 ≠ lx0 + 2 := by omega
  unfold divotBlock
  rw [r0, r1, r2, r3]
  split_ifs with h1 h2
  · refine ⟨?_, ?_, ?_⟩
    · simp only [VCache.bump, VCache.fetch1, Bool.and_true, Bool.true_and, decide_eq_true_eq]
      omega
    · intro k hk1 hk2
      simp only [VCache.bump, VCache.fetch1] at hk2 ⊢
      by_cases hka : k = lx0 + 2
      · simp [hka, cd2]
      · have hkb : k = lx0 + 1 := by omega
        simp [hkb, cd1, e12]
    · simp [VCache.bump, VCache.fetch1]
  · refine ⟨?_, ?_, ?_⟩
    · simp only [VCache.bump, VCache.fetch1, Bool.and_true, Bool.true_and, decide_eq_true_eq]
      omega
    · intro k hk1 hk2
      simp only [VCache.bump, VCache.fetch1] at hk2 ⊢
      by_cases hka : k = lx0 + 2
      · simp [hka, cd2]
      · obtain ⟨hf, hdd⟩ := hd k hk1 (by omega)
        simp [hka, hf, hdd]
    · simp [VCache.bump, VCache.fetch1]
  · refine ⟨rfl, hd, ?_⟩
    show lx0 + 2 ≤ d.marker
    omega

theorem pixelCaches_spec (F : FrameCtx) (pixels nextpixels fbs : ℕ) (lx0 : ℤ)
    (s : RowState)
    (hva : InvC lx0 (fvCur F pixels) s.va)
    (hvan : InvC lx0 (fvNext F nextpixels fbs) s.vaN)
    (hdv : F.ctrl.divotEnable = 1 → InvC (lx0 + 1) (canonDiv (fvCur F pixels)) s.dv)
    (hdvn : F.ctrl.divotEnable = 1 →
      InvC (lx0 + 1) (canonDiv (fvNext F nextpixels fbs)) s.dvN) :
    (pixelCaches F pixels nextpixels fbs lx0 s).2.2.2.2 = true ∧
    InvC lx0 (fvCur F pixels) (pixelCaches F pixels nextpixels fbs lx0 s).1 ∧
    lx0 + 2 ≤ (pixelCaches F pixels nextpixels fbs lx0 s).1.marker ∧
    InvC lx0 (fvNext F nextpixels fbs) (pixelCaches F pixels nextpixels fbs lx0 s).2.2.1 ∧
    lx0 + 2 ≤ (pixelCaches F pixels nextpixels fbs lx0 s).2.2.1.marker ∧
    (F.ctrl.divotEnable = 1 →
      InvC (lx0 + 1) (canonDiv (fvCur F pixels))
          (pixelCaches F pixels nextpixels fbs lx0 s).2.1 ∧
      lx0 + 2 ≤ (pixelCaches F pixels nextpixels fbs lx0 s).2.1.marker ∧
      InvC (lx0 + 1) (canonDiv (fvNext F nextpixels fbs))
          (pixelCaches F pixels nextpixels fbs lx0 s).2.2.2.1 ∧
      lx0 + 2 ≤ (pixelCaches F pixels nextpixels fbs lx0 s).2.2.2.1.marker) ∧
    (¬F.ctrl.divotEnable = 1 →
      (pixelCaches F pixels nextpixels fbs lx0 s).2.1 = s.dv ∧
      (pixelCaches F pixels nextpixels fbs lx0 s).2.2.2.1 = s.dvN) := by
  obtain ⟨okA, hA, hAm⟩ := aaFetchBlock_spec (fvCur F pixels) lx0 s.va hva
  obtain ⟨okB, hB, hBm⟩ := aaFetchBlock_spec (fvNext F nextpixels fbs) lx0 s.vaN hvan
  unfold pixelCaches
  split_ifs with hdiv
  · dsimp only
    obtain ⟨okA2, hA2, hA2m⟩ :=
      farFetchBlock_spec (fvCur F pixels) lx0 (aaFetchBlock (fvCur F pixels) lx0 s.va).1 hA hAm
    obtain ⟨okB2, hB2, hB2m⟩ :=
      farFetchBlock_spec (fvNext F nextpixels fbs) lx0
        (aaFetchBlock (fvNext F nextpixels fbs) lx0 s.vaN).1 hB hBm
    obtain ⟨okD, hD, hDm⟩ :=
      divotBlock_spec (farFetchBlock (fvCur F pixels) lx0
          (aaFetchBlock (fvCur F pixels) lx0 s.va).1).1 lx0 (fvCur F pixels) s.dv
        hA2 hA2m (hdv hdiv)
    obtain ⟨okDN, hDN, hDNm⟩ :=
      divotBlock_spec (farFetchBlock (fvNext F nextpixels fbs) lx0
          (aaFetchBlock (fvNext F nextpixels fbs) lx0 s.vaN).1).1 lx0
        (fvNext F nextpixels fbs) s.dvN hB2 hB2m (hdvn hdiv)
    refine ⟨?_, hA2, by omega, hB2, by omega, fun _ => ⟨hD, hDm, hDN, hDNm⟩,
      fun hc => absurd hdiv hc⟩
    simp [okA, okB, okA2, okB2, okD, okDN]
  · dsimp only
    exact ⟨by simp [okA, okB], hA, hAm, hB, hBm, fun hc => absurd hc hdiv,
      fun _ => ⟨rfl, rfl⟩⟩

theorem pixelStep_spec (F : FrameCtx) (pixels nextpixels fbs yfrac dbase i : ℕ)
    (s : RowState)
    (hva : InvC (pixLx0 F i) (fvCur F pixels) s.va)
    (hvan : InvC (pixLx0 F i) (fvNext F nextpixels fbs) s.vaN)
    (hdv : F.ctrl.divotEnable = 1 → InvC (pixLx0 F i + 1) (canonDiv (fvCur F pixels)) s.dv)
    (hdvn : F.ctrl.divotEnable = 1 →
      InvC (pixLx0 F i + 1) (canonDiv (fvNext F nextpixels fbs)) s.dvN) :
    pixelStep F pixels nextpixels fbs yfrac dbase i s =
      { va := (pixelCaches F pixels nextpixels fbs (pixLx0 F i) s).1
        vaN := (pixelCaches F pixels nextpixels fbs (pixLx0 F i) s).2.2.1
        dv := (pixelCaches F pixels nextpixels fbs (pixLx0 F i) s).2.1
        dvN := (pixelCaches F pixels nextpixels fbs (pixLx0 F i) s).2.2.2.1
        gst := (refPixel F pixels nextpixels fbs yfrac i s.gst).2
        ok := s.ok
        writes := s.writes ++
          [⟨dbase + i, refVal F i (refPixel F pixels nextpixels fbs yfrac i s.gst).1,
            (refPixel F pixels nextpixels fbs yfrac i s.gst).1.1,
            (refPixel F pixels nextpixels fbs yfrac i s.gst).1.2.1,
            (refPixel F pixels nextpixels fbs yfrac i s.gst).1.2.2⟩] } := by
  obtain ⟨okC, hva2, hm2, hvan2, hmn2, hdivs, hndivs⟩ :=
    pixelCaches_spec F pixels nextpixels fbs (pixLx0 F i) s hva hvan hdv hdvn
  by_cases hdiv : F.ctrl.divotEnable = 1
  · obtain ⟨hdv1, hdm1, hdvn1, hdmn1⟩ := hdivs hdiv
    have hR0 := readC_spec hdv1 (le_refl _) (by omega)
    have hRn := readC_spec hdv1 (show pixLx0 F i + 1 ≤ pixLx0 F i + 2 by omega) (by omega)
    have hRs := readC_spec hdvn1 (le_refl _) (by omega)
    have hRsn := readC_spec hdvn1 (show pixLx0 F i + 1 ≤ pixLx0 F i + 2 by omega) (by omega)
    unfold pixelStep refPixel refVal
    dsimp only
    rw [okC]
    simp only [if_pos hdiv, hR0, hRn, hRs, hRsn, Bool.and_true]
    by_cases hl : pixLerp F yfrac i = true
    · simp [hl]
    · simp [hl]
  · have hR0 := readC_spec hva2 (show pixLx0 F i ≤ pixLx0 F i + 1 by omega) (by omega)
    have hRn := readC_spec hva2 (show pixLx0 F i ≤ pixLx0 F i + 2 by omega) (by omega)
    have hRs := readC_spec hvan2 (show pixLx0 F i ≤ pixLx0 F i + 1 by omega) (by omega)
    have hRsn := readC_spec hvan2 (show pixLx0 F i ≤ pixLx0 F i + 2 by omega) (by omega)
    unfold pixelStep refPixel refVal
    dsimp only
    rw [okC]
    simp only [if_neg hdiv, hR0, hRn, hRs, hRsn, Bool.and_true]
    by_cases hl : pixLerp F yfrac i = true
    · simp [hl]
    · simp [hl]

theorem pixLx0_mono (F : FrameCtx) (i : ℕ) : pixLx0 F i ≤ pixLx0 F (i + 1) := by
  unfold pixLx0 pixX
  have h : (F.xStartInit + i * F.xAdd) >>> 10 ≤ (F.xStartInit + (i + 1) * F.xAdd) >>> 10 := by
    simp only [Nat.shiftRight_eq_div_pow]
    apply Nat.div_le_div_right
    have : (i + 1) * F.xAdd = i * F.xAdd + F.xAdd := by ring
    omega
  exact_mod_cast h

theorem rowLoop_aux (F : FrameCtx) (pixels nextpixels fbs yfrac dbase : ℕ) (s : RowState)
    (hva : InvC (pixLx0 F 0) (fvCur F pixels) s.va)
    (hvan : InvC (pixLx0 F 0) (fvNext F nextpixels fbs) s.vaN)
    (hdv : F.ctrl.divotEnable = 1 → InvC (pixLx0 F 0 + 1) (canonDiv (fvCur F pixels)) s.dv)
    (hdvn : F.ctrl.divotEnable = 1 →
      InvC (pixLx0 F 0 + 1) (canonDiv (fvNext F nextpixels fbs)) s.dvN) :
    ∀ n : ℕ,
      ((List.range n).foldl
          (fun st i => pixelStep F pixels nextpixels fbs yfrac dbase i st) s).ok = s.ok ∧
      ((List.range n).foldl
          (fun st i => pixelStep F pixels nextpixels fbs yfrac dbase i st) s).gst =
        ((List.range n).foldl (refRowStep F pixels nextpixels fbs yfrac dbase) ([], s.gst)).2 ∧
      ((List.range n).foldl
          (fun st i => pixelStep F pixels nextpixels fbs yfrac dbase i st) s).writes =
        s.writes ++
          ((List.range n).foldl (refRowStep F pixels nextpixels fbs yfrac dbase) ([], s.gst)).1 ∧
      InvC (pixLx0 F n) (fvCur F pixels)
        ((List.range n).foldl
          (fun st i => pixelStep F pixels nextpixels fbs yfrac dbase i st) s).va ∧
      InvC (pixLx0 F n) (fvNext F nextpixels fbs)
        ((List.range n).foldl
          (fun st i => pixelStep F pixels nextpixels fbs yfrac dbase i st) s).vaN ∧
      (F.ctrl.divotEnable = 1 →
        InvC (pixLx0 F n + 1) (canonDiv (fvCur F pixels))
          ((List.range n).foldl
            (fun st i => pixelStep F pixels nextpixels fbs yfrac dbase i st) s).dv ∧
        InvC (pixLx0 F n + 1) (canonDiv (fvNext F nextpixels fbs))
          ((List.range n).foldl
            (fun st i => pixelStep F pixels nextpixels fbs yfrac dbase i st) s).dvN) := by
  intro n
  induction n with
  | zero =>
    refine ⟨rfl, rfl, by simp, hva, hvan, fun hc => ⟨hdv hc, hdvn hc⟩⟩
  | succ n ih =>
    obtain ⟨iok, igst, iwr, iva, ivan, idvs⟩ := ih
    rw [List.range_succ, List.foldl_append, List.foldl_append]
    set t := (List.range n).foldl
      (fun st i => pixelStep F pixels nextpixels fbs yfrac dbase i st) s with ht
    set racc := (List.range n).foldl (refRowStep F pixels nextpixels fbs yfrac dbase)
      ([], s.gst) with hracc
    have hstep := pixelStep_spec F pixels nextpixels fbs yfrac dbase n t iva ivan
      (fun hc => (idvs hc).1) (fun hc => (idvs hc).2)
    obtain ⟨cok, cva, cvam, cvan, cvanm, cdivs, _⟩ :=
      pixelCaches_spec F pixels nextpixels fbs (pixLx0 F n) t iva ivan
        (fun hc => (idvs hc).1) (fun hc => (idvs hc).2)
    have hmono := pixLx0_mono F n
    simp only [List.foldl_cons, List.foldl_nil, hstep]
    refine ⟨by simp [iok], ?_, ?_, ?_, ?_, ?_⟩
    · simp only [refRowStep, igst]
    · simp only [refRowStep, igst, iwr]
      simp [List.append_assoc]
    · exact cva.mono hmono
    · exact cvan.mono hmono
    · intro hc
      obtain ⟨d1, _, d2, _⟩ := cdivs hc
      exact ⟨d1.mono (by omega), d2.mono (by omega)⟩

theorem InvC_of_cmInit (F : FrameCtx) (c : VCache) (canon : ℤ → Ccvg) (lo : ℤ)
    (hm : c.marker = cmInit F) (hlo : pixLx0 F 0 ≤ lo) : InvC lo canon c := by
  intro k hk1 hk2
  rw [hm] at hk2
  exfalso
  unfold cmInit at hk2
  unfold pixLx0 pixX at hlo
  have h0 : F.xStartInit + 0 * F.xAdd = F.xStartInit := by omega
  rw [h0] at hlo
  omega

theorem rowLoop_spec (F : FrameCtx) (pixels nextpixels fbs yfrac dbase : ℕ) (s : RowState)
    (hva : s.va.marker = cmInit F) (hvan : s.vaN.marker = cmInit F)
    (hdv : F.ctrl.divotEnable = 1 → s.dv.marker = cmInit F)
    (hdvn : F.ctrl.divotEnable = 1 → s.dvN.marker = cmInit F) :
    (rowLoop F pixels nextpixels fbs yfrac dbase s).ok = s.ok ∧
    (rowLoop F pixels nextpixels fbs yfrac dbase s).gst =
      (refRow F pixels nextpixels fbs yfrac dbase s.gst).2 ∧
    (rowLoop F pixels nextpixels fbs yfrac dbase s).writes =
      s.writes ++ (refRow F pixels nextpixels fbs yfrac dbase s.gst).1 := by
  have h := rowLoop_aux F pixels nextpixels fbs yfrac dbase s
    (InvC_of_cmInit F s.va _ _ hva (le_refl _))
    (InvC_of_cmInit F s.vaN _ _ hvan (le_refl _))
    (fun hc => InvC_of_cmInit F s.dv _ _ (hdv hc) (by omega))
    (fun hc => InvC_of_cmInit F s.dvN _ _ (hdvn hc) (by omega))
    F.hresN
  exact ⟨h.1, h.2.1, h.2.2.1⟩

theorem frameRowStep_spec (F : FrameCtx) (fs : FrameState) (j : ℕ) :
    (frameRowStep F fs j).row.ok = fs.row.ok ∧
    (frameRowStep F fs j).row.gst = (refRowOfJ F j (rowFbs F fs.fbs j) fs.row.gst).2 ∧
    (frameRowStep F fs j).row.writes =
      fs.row.writes ++ (refRowOfJ F j (rowFbs F fs.fbs j) fs.row.gst).1 ∧
    (frameRowStep F fs j).fbs = rowFbs F fs.fbs j := by
  unfold frameRowStep
  dsimp only
  have h := rowLoop_spec F (F.viWidth * ((F.yStart + j * F.yAdd) >>> 10))
    (F.viWidth + F.viWidth * ((F.yStart + j * F.yAdd) >>> 10)) (rowFbs F fs.fbs j)
    (((F.yStart + j * F.yAdd) >>> 5) % 32) (F.prescalePtr + F.linecount * j)
    { fs.row with
      va := { fs.row.va with marker := cmInit F }
      vaN := { fs.row.vaN with marker := cmInit F }
      dv := if F.ctrl.divotEnable = 1 then { fs.row.dv with marker := cmInit F } else fs.row.dv
      dvN :=
        if F.ctrl.divotEnable = 1 then { fs.row.dvN with marker := cmInit F } else fs.row.dvN }
    rfl rfl (fun hc => by simp [hc]) (fun hc => by simp [hc])
  obtain ⟨hok, hgst, hwr⟩ := h
  unfold refRowOfJ
  by_cases hsw : fs.cacheInit = false ∧ F.yAdd = 0x400
  · rw [if_pos hsw]
    exact ⟨hok, hgst, hwr, rfl⟩
  · rw [if_neg hsw]
    exact ⟨hok, hgst, hwr, rfl⟩

theorem refRows_acc (F : FrameCtx) (js : List ℕ) :
    ∀ (ws : List PixWrite) (b g : ℕ),
      js.foldl (refRowsStep F) (ws, b, g) =
        (ws ++ (refRows F js b g).1, (refRows F js b g).2.1, (refRows F js b g).2.2) := by
  induction js with
  | nil => intro ws b g; simp [refRows]
  | cons j t ih =>
    intro ws b g
    have h1 : refRows F (j :: t) b g =
        t.foldl (refRowsStep F) (refRowsStep F ([], b, g) j) := rfl
    simp only [List.foldl_cons]
    rw [ih, h1, ih]
    unfold refRowsStep
    dsimp only
    simp [List.append_assoc]

theorem viProcessRows_spec (F : FrameCtx) (js : List ℕ) :
    ∀ fs : FrameState,
      (viProcessRows F js fs).row.ok = fs.row.ok ∧
      (viProcessRows F js fs).row.writes =
        fs.row.writes ++ (refRows F js fs.fbs fs.row.gst).1 ∧
      (viProcessRows F js fs).row.gst = (refRows F js fs.fbs fs.row.gst).2.2 ∧
      (viProcessRows F js fs).fbs = (refRows F js fs.fbs fs.row.gst).2.1 := by
  induction js with
  | nil => intro fs; refine ⟨rfl, by simp [viProcessRows, refRows], rfl, rfl⟩
  | cons j t ih =>
    intro fs
    obtain ⟨sok, sgst, swr, sfbs⟩ := frameRowStep_spec F fs j
    have hrows : viProcessRows F (j :: t) fs =
        viProcessRows F t (frameRowStep F fs j) := rfl
    obtain ⟨iok, iwr, igst, ifbs⟩ := ih (frameRowStep F fs j)
    have href : refRows F (j :: t) fs.fbs fs.row.gst =
        t.foldl (refRowsStep F) (refRowsStep F ([], fs.fbs, fs.row.gst) j) := rfl
    have hstep1 : refRowsStep F ([], fs.fbs, fs.row.gst) j =
        ((refRowOfJ F j (rowFbs F fs.fbs j) fs.row.gst).1, rowFbs F fs.fbs j,
          (refRowOfJ F j (rowFbs F fs.fbs j) fs.row.gst).2) := rfl
    rw [hrows, href, hstep1, refRows_acc]
    refine ⟨by rw [iok, sok], ?_, ?_, ?_⟩
    · rw [iwr, swr, sgst, sfbs]
      simp [List.append_assoc]
    · rw [igst, sgst, sfbs]
    · rw [ifbs, sgst, sfbs]

/-! ### Prescale buffer write lemmas -/

theorem applyWrites_nil (B : ℕ → ℕ) : applyWrites B [] = B := rfl

theorem applyWrites_cons (B : ℕ → ℕ) (w : PixWrite) (L : List PixWrite) :
    applyWrites B (w :: L) =
      applyWrites (fun idx => if idx = w.idx then w.val else B idx) L := rfl

theorem applyWrites_append (B : ℕ → ℕ) (L1 L2 : List PixWrite) :
    applyWrites B (L1 ++ L2) = applyWrites (applyWrites B L1) L2 :=
  List.foldl_append ..

/-- The value at `idx` depends only on the base's value at `idx`. -/
theorem applyWrites_point (L : List PixWrite) :
    ∀ (B B' : ℕ → ℕ) (idx : ℕ), B idx = B' idx →
      applyWrites B L idx = applyWrites B' L idx := by
  induction L with
  | nil => intro B B' idx h; exact h
  | cons w t ih =>
    intro B B' idx h
    rw [applyWrites_cons, applyWrites_cons]
    apply ih
    dsimp only
    split_ifs with he
    · rfl
    · exact h

/-- A cell no write targets keeps its base value. -/
theorem applyWrites_not_mem (L : List PixWrite) :
    ∀ (B : ℕ → ℕ) (idx : ℕ), (∀ w ∈ L, w.idx ≠ idx) →
      applyWrites B L idx = B idx := by
  induction L with
  | nil => intro B idx _; rfl
  | cons w t ih =>
    intro B idx h
    rw [applyWrites_cons]
    rw [ih _ idx (fun v hv => h v (List.mem_cons_of_mem w hv))]
    have hne := h w (List.mem_cons_self w t)
    exact if_neg (fun he => hne he.symm)

/-- A cell some write targets gets a value independent of the base. -/
theorem applyWrites_indep (L : List PixWrite) :
    ∀ (B B' : ℕ → ℕ) (idx : ℕ) (w : PixWrite), w ∈ L → w.idx = idx →
      applyWrites B L idx = applyWrites B' L idx := by
  induction L with
  | nil => intro B B' idx w hw; exact absurd hw (List.not_mem_nil w)
  | cons a t ih =>
    intro B B' idx w hw hidx
    rw [applyWrites_cons, applyWrites_cons]
    rcases List.mem_cons.1 hw with he | ht
    · subst he
      by_cases hmem : ∃ v ∈ t, v.idx = idx
      · obtain ⟨v, hv, hvidx⟩ := hmem
        exact ih _ _ idx v hv hvidx
      · push_neg at hmem
        apply applyWrites_point
        simp [hidx]
    · exact ih _ _ idx w ht hidx

/-- Applying the same write list twice is the same as applying it once. -/
theorem applyWrites_self (B : ℕ → ℕ) (L : List PixWrite) (idx : ℕ) :
    applyWrites (applyWrites B L) L idx = applyWrites B L idx := by
  by_cases hmem : ∃ w ∈ L, w.idx = idx
  · obtain ⟨w, hw, hidx⟩ := hmem
    exact applyWrites_indep L _ _ idx w hw hidx
  · push_neg at hmem
    rw [applyWrites_not_mem L _ idx hmem]

/-- With pairwise-distinct target cells, the writer of a cell determines its
final value. -/
theorem applyWrites_unique (L : List PixWrite)
    (hL : L.Pairwise (fun a b => a.idx ≠ b.idx)) :
    ∀ (B : ℕ → ℕ) (w : PixWrite), w ∈ L → applyWrites B L w.idx = w.val := by
  induction L with
  | nil => intro B w hw; exact absurd hw (List.not_mem_nil w)
  | cons a t ih =>
    intro B w hw
    rw [applyWrites_cons]
    rcases List.mem_cons.1 hw with he | ht
    · subst he
      rw [applyWrites_not_mem t _ w.idx]
      · simp
      · intro v hv
        exact fun hvw => (List.pairwise_cons.1 hL).1 v hv hvw.symm
    · exact ih (List.pairwise_cons.1 hL).2 _ w ht

/-- Two permuted write lists with pairwise-distinct target cells produce the
same buffer. -/
theorem applyWrites_perm (L L' : List PixWrite) (hp : L.Perm L')
    (hL : L.Pairwise (fun a b => a.idx ≠ b.idx)) (B : ℕ → ℕ) (idx : ℕ) :
    applyWrites B L idx = applyWrites B L' idx := by
  by_cases hmem : ∃ w ∈ L, w.idx = idx
  · obtain ⟨w, hw, hidx⟩ := hmem
    subst hidx
    rw [applyWrites_unique L hL B w hw]
    rw [applyWrites_unique L' ((hp.pairwise_iff (fun h => Ne.symm h)).1 hL) B w (hp.mem_iff.1 hw)]
  · push_neg at hmem
    rw [applyWrites_not_mem L _ idx hmem,
      applyWrites_not_mem L' _ idx (fun w hw => hmem w (hp.mem_iff.2 hw))]

/-- C6: within the processing of any single scanline in normal mode, the AA
and divot cache markers (current-row and next-row) never decrease — every
marker assignment goes through `VCache.bump`, whose flag checks the new
marker is not below the old — and every cache read (`VCache.readC`: the
three-tap window reads, the divot-filter inputs and the lerp neighbour
reads) finds its entry stored by a fetch with the marker raised to at least
that column.  The accumulated discipline flag `ok` conjoins all those
checks: a scanline leaves it exactly as it was, and a whole serial
`vi_process` run started from a fresh state keeps it `true`. -/
theorem vi_cache_marker_discipline (F : FrameCtx) (fs : FrameState) (j : ℕ)
    (d0 : ℤ → Ccvg) (g0 : ℕ) :
    (frameRowStep F fs j).row.ok = fs.row.ok ∧
    (viProcessSerial F d0 g0).row.ok = true := by
  refine ⟨(frameRowStep_spec F fs j).1, ?_⟩
  exact (viProcessRows_spec F (List.range F.vresN) (initFrameState d0 g0)).1

/-! ### Structure of the write list -/

/-- The PRNG state after `i` columns of the reference scanline. -/
def refGst (F : FrameCtx) (pixels nextpixels fbs yfrac g0 : ℕ) : ℕ → ℕ
  | 0 => g0
  | i + 1 =>
    (refPixel F pixels nextpixels fbs yfrac i (refGst F pixels nextpixels fbs yfrac g0 i)).2

/-- The write of column `i` of the reference scanline. -/
def refWriteAt (F : FrameCtx) (pixels nextpixels fbs yfrac dbase g0 i : ℕ) : PixWrite :=
  let pg := refPixel F pixels nextpixels fbs yfrac i (refGst F pixels nextpixels fbs yfrac g0 i)
  ⟨dbase + i, refVal F i pg.1, pg.1.1, pg.1.2.1, pg.1.2.2⟩

theorem refRow_foldl_eq_map (F : FrameCtx) (pixels nextpixels fbs yfrac dbase g0 : ℕ) :
    ∀ n : ℕ,
      (List.range n).foldl (refRowStep F pixels nextpixels fbs yfrac dbase) ([], g0) =
        ((List.range n).map (refWriteAt F pixels nextpixels fbs yfrac dbase g0),
          refGst F pixels nextpixels fbs yfrac g0 n) := by
  intro n
  induction n with
  | zero => rfl
  | succ n ih =>
    rw [List.range_succ, List.foldl_append, List.map_append, ih]
    rfl

theorem refRow_eq_map (F : FrameCtx) (pixels nextpixels fbs yfrac dbase g0 : ℕ) :
    refRow F pixels nextpixels fbs yfrac dbase g0 =
      ((List.range F.hresN).map (refWriteAt F pixels nextpixels fbs yfrac dbase g0),
        refGst F pixels nextpixels fbs yfrac g0 F.hresN) :=
  refRow_foldl_eq_map F pixels nextpixels fbs yfrac dbase g0 F.hresN

theorem refWriteAt_idx (F : FrameCtx) (pixels nextpixels fbs yfrac dbase g0 i : ℕ) :
    (refWriteAt F pixels nextpixels fbs yfrac dbase g0 i).idx = dbase + i := rfl

theorem refWriteAt_val (F : FrameCtx) (pixels nextpixels fbs yfrac dbase g0 i : ℕ) :
    (refWriteAt F pixels nextpixels fbs yfrac dbase g0 i).val =
      if F.minhpass ≤ (i : ℤ) ∧ (i : ℤ) < F.maxhpass then
        ((refWriteAt F pixels nextpixels fbs yfrac dbase g0 i).pr <<< 16) |||
          ((refWriteAt F pixels nextpixels fbs yfrac dbase g0 i).pg <<< 8) |||
          (refWriteAt F pixels nextpixels fbs yfrac dbase g0 i).pb
      else 0 := rfl

theorem filter_map_range_nil (f : ℕ → PixWrite) (dbase : ℕ) (target : ℕ)
    (hfidx : ∀ k, (f k).idx = dbase + k) :
    ∀ n : ℕ, (∀ k, k < n → dbase + k ≠ target) →
      ((List.range n).map f).filter (fun w => w.idx = target) = [] := by
  intro n
  induction n with
  | zero => intro _; rfl
  | succ n ih =>
    intro h
    rw [List.range_succ, List.map_append, List.filter_append,
      ih (fun k hk => h k (by omega))]
    simp [hfidx n, h n (by omega)]

theorem filter_map_range_one (f : ℕ → PixWrite) (dbase : ℕ)
    (hfidx : ∀ k, (f k).idx = dbase + k) :
    ∀ n i : ℕ, i < n →
      ((List.range n).map f).filter (fun w => w.idx = dbase + i) = [f i] := by
  intro n
  induction n with
  | zero => intro i hi; omega
  | succ n ih =>
    intro i hi
    rw [List.range_succ, List.map_append, List.filter_append]
    by_cases hin : i < n
    · rw [ih i hin]
      have hne : dbase + n ≠ dbase + i := by omega
      simp [hfidx n, hne]
    · have hieq : i = n := by omega
      rw [hieq]
      rw [filter_map_range_nil f dbase (dbase + n) hfidx n (fun k hk => by omega)]
      simp [hfidx n]

theorem row_cell_inj (lc j i j' i' : ℕ) (hi : i < lc) (hi' : i' < lc)
    (h : lc * j + i = lc * j' + i') : j = j' ∧ i = i' := by
  have hlc : 0 < lc := by omega
  have h1 : (i + lc * j) / lc = i / lc + j := Nat.add_mul_div_left i j hlc
  have h2 : (i' + lc * j') / lc = i' / lc + j' := Nat.add_mul_div_left i' j' hlc
  have hz : i / lc = 0 := Nat.div_eq_of_lt hi
  have hz' : i' / lc = 0 := Nat.div_eq_of_lt hi'
  have he : i + lc * j = i' + lc * j' := by omega
  have hj : j = j' := by
    rw [he, h2] at h1
    omega
  subst hj
  exact ⟨rfl, by omega⟩

theorem refRows_cons (F : FrameCtx) (a : ℕ) (t : List ℕ) (b g : ℕ) :
    (refRows F (a :: t) b g).1 =
      (refRowOfJ F a (rowFbs F b a) g).1 ++
        (refRows F t (rowFbs F b a) (refRowOfJ F a (rowFbs F b a) g).2).1 := by
  have h1 : refRows F (a :: t) b g =
      t.foldl (refRowsStep F) (refRowsStep F ([], b, g) a) := rfl
  have h2 : refRowsStep F ([], b, g) a =
      ((refRowOfJ F a (rowFbs F b a) g).1, rowFbs F b a,
        (refRowOfJ F a (rowFbs F b a) g).2) := rfl
  rw [h1, h2, refRows_acc]

theorem refRow_fst_eq_map (F : FrameCtx) (pixels nextpixels fbs yfrac dbase g0 : ℕ) :
    (refRow F pixels nextpixels fbs yfrac dbase g0).1 =
      (List.range F.hresN).map (refWriteAt F pixels nextpixels fbs yfrac dbase g0) :=
  congrArg Prod.fst (refRow_eq_map F pixels nextpixels fbs yfrac dbase g0)

/-- Every write of the reference frame lands in a claimed cell:
`prescale_ptr + linecount * j + i` with `j` a processed row and
`i < hres`. -/
theorem refRows_mem_idx (F : FrameCtx) :
    ∀ (js : List ℕ) (b g : ℕ) (w : PixWrite), w ∈ (refRows F js b g).1 →
      ∃ j ∈ js, ∃ i : ℕ, i < F.hresN ∧ w.idx = F.prescalePtr + F.linecount * j + i := by
  intro js
  induction js with
  | nil =>
    intro b g w hw
    simp [refRows] at hw
  | cons a t ih =>
    intro b g w hw
    rw [refRows_cons] at hw
    rcases List.mem_append.1 hw with hrow | hrest
    · unfold refRowOfJ at hrow
      rw [refRow_fst_eq_map] at hrow
      obtain ⟨i, hi, hwi⟩ := List.mem_map.1 hrow
      refine ⟨a, List.mem_cons_self a t, i, List.mem_range.1 hi, ?_⟩
      rw [← hwi, refWriteAt_idx]
    · obtain ⟨j, hj, i, hi, hidx⟩ := ih _ _ w hrest
      exact ⟨j, List.mem_cons_of_mem a hj, i, hi, hidx⟩

/-- Exactly one write of the reference frame targets the cell of row `j`,
column `i`, and its value is the packed gamma-stage color inside
`[minhpass, maxhpass)` and 0 outside. -/
theorem refRows_filter_single (F : FrameCtx) (hlc : F.hresN ≤ F.linecount) :
    ∀ (js : List ℕ) (b g : ℕ) (j i : ℕ), js.Nodup → j ∈ js → i < F.hresN →
      ∃ w : PixWrite,
        ((refRows F js b g).1).filter
            (fun w' => w'.idx = F.prescalePtr + F.linecount * j + i) = [w] ∧
        w.idx = F.prescalePtr + F.linecount * j + i ∧
        w.val =
          if F.minhpass ≤ (i : ℤ) ∧ (i : ℤ) < F.maxhpass then
            (w.pr <<< 16) ||| (w.pg <<< 8) ||| w.pb
          else 0 := by
  intro js
  induction js with
  | nil =>
    intro b g j i _ hj _
    exact absurd hj (List.not_mem_nil j)
  | cons a t ih =>
    intro b g j i hnd hj hi
    rw [refRows_cons, List.filter_append]
    rcases List.mem_cons.1 hj with hja | hjt
    · subst hja
      -- the target row is the head; the tail rows write other cells
      have htail :
          ((refRows F t (rowFbs F b j) (refRowOfJ F j (rowFbs F b j) g).2).1).filter
            (fun w' => w'.idx = F.prescalePtr + F.linecount * j + i) = [] := by
        rw [List.filter_eq_nil_iff]
        intro w hw
        obtain ⟨j', hj', i', hi', hidx⟩ := refRows_mem_idx F t _ _ w hw
        simp only [decide_eq_true_eq]
        rw [hidx]
        intro heq
        have hcontra := row_cell_inj F.linecount j' i' j i (by omega) (by omega) (by omega)
        rw [hcontra.1] at hj'
        exact (List.nodup_cons.1 hnd).1 hj'
      rw [htail]
      unfold refRowOfJ
      rw [refRow_fst_eq_map,
        filter_map_range_one _ (F.prescalePtr + F.linecount * j)
          (fun k => refWriteAt_idx ..) _ i hi]
      refine ⟨refWriteAt F (F.viWidth * ((F.yStart + j * F.yAdd) >>> 10))
        (F.viWidth + F.viWidth * ((F.yStart + j * F.yAdd) >>> 10)) (rowFbs F b j)
        (((F.yStart + j * F.yAdd) >>> 5) % 32) (F.prescalePtr + F.linecount * j) g i,
        by simp, refWriteAt_idx .., refWriteAt_val ..⟩
    · -- the target row is in the tail; the head row writes other cells
      have hane : a ≠ j := by
        intro he
        rw [he] at hnd
        exact (List.nodup_cons.1 hnd).1 hjt
      have hhead :
          ((refRowOfJ F a (rowFbs F b a) g).1).filter
            (fun w' => w'.idx = F.prescalePtr + F.linecount * j + i) = [] := by
        unfold refRowOfJ
        rw [refRow_fst_eq_map, List.filter_eq_nil_iff]
        intro w hw
        obtain ⟨i', hi', hwi⟩ := List.mem_map.1 hw
        have hi2 : i' < F.hresN := List.mem_range.1 hi'
        simp only [decide_eq_true_eq]
        rw [← hwi, refWriteAt_idx]
        intro heq
        have hcontra := row_cell_inj F.linecount a i' j i (by omega) (by omega) (by omega)
        exact hane hcontra.1
      rw [hhead]
      obtain ⟨w, hfil, hidx, hval⟩ := ih _ _ j i (List.nodup_cons.1 hnd).2 hjt hi
      refine ⟨w, ?_, hidx, hval⟩
      rw [hfil]
      rfl

theorem vi_start_hres_le_linecount (r : ViRegs) (hs : ViHist) :
    (viProcessStart r hs).2.1.hres.toNat ≤ (viProcessStart r hs).2.1.linecount := by
  dsimp only [viProcessStart, decodeCtrl, clampHres]
  rw [show (640 <<< 1 : ℕ) = 1280 from rfl]
  split_ifs <;> omega

theorem vi_start_minmax (r : ViRegs) (hs : ViHist) :
    (viProcessStart r hs).2.1.minhpass =
      (if (viProcessStart r hs).2.1.hStartClamped then 0 else 8) ∧
    (viProcessStart r hs).2.1.maxhpass =
      (if (viProcessStart r hs).2.1.hresClamped then (viProcessStart r hs).2.1.hres
       else (viProcessStart r hs).2.1.hres - 7) := by
  dsimp only [viProcessStart, decodeCtrl]
  constructor <;> simp only [decide_eq_true_eq]

/-- C4: in every normal-mode frame (a `vi_process_start` that reports a
frame to draw), each output scanline `j < vres` and column `i < hres` is
written exactly once, at `prescale[prescale_ptr + j*linecount + i]`; the
value written is the packed gamma-stage color `(r<<16)|(g<<8)|b` when
`minhpass ≤ i < maxhpass` and 0 otherwise; and
`minhpass = h_start_clamped ? 0 : 8`,
`maxhpass = hres_clamped ? hres : hres - 7` (vi.c 331-332, 640-643). -/
theorem vi_row_write_pattern (r : ViRegs) (hs : ViHist) (rdram : ℤ → ℕ)
    (d0 : ℤ → Ccvg) (g0 : ℕ) (j i : ℕ)
    (hdone : (viProcessStart r hs).1 = .done true)
    (hj : j < (viProcessStart r hs).2.1.vres.toNat)
    (hi : i < (viProcessStart r hs).2.1.hres.toNat) :
    (∃ w : PixWrite,
      ((viProcessSerial (mkFrameCtx (viProcessStart r hs).2.1 rdram) d0 g0).row.writes).filter
          (fun w' => w'.idx =
            (viProcessStart r hs).2.1.prescalePtr +
              (viProcessStart r hs).2.1.linecount * j + i) = [w] ∧
      w.idx = (viProcessStart r hs).2.1.prescalePtr +
        (viProcessStart r hs).2.1.linecount * j + i ∧
      w.val =
        (if (viProcessStart r hs).2.1.minhpass ≤ (i : ℤ) ∧
            (i : ℤ) < (viProcessStart r hs).2.1.maxhpass then
          (w.pr <<< 16) ||| (w.pg <<< 8) ||| w.pb
        else 0)) ∧
    (viProcessStart r hs).2.1.minhpass =
      (if (viProcessStart r hs).2.1.hStartClamped then 0 else 8) ∧
    (viProcessStart r hs).2.1.maxhpass =
      (if (viProcessStart r hs).2.1.hresClamped then (viProcessStart r hs).2.1.hres
       else (viProcessStart r hs).2.1.hres - 7) := by
  refine ⟨?_, (vi_start_minmax r hs).1, (vi_start_minmax r hs).2⟩
  have hser :=
    (viProcessRows_spec (mkFrameCtx (viProcessStart r hs).2.1 rdram)
      (List.range (mkFrameCtx (viProcessStart r hs).2.1 rdram).vresN)
      (initFrameState d0 g0)).2.1
  have hsing :=
    refRows_filter_single (mkFrameCtx (viProcessStart r hs).2.1 rdram)
      (vi_start_hres_le_linecount r hs)
      (List.range (mkFrameCtx (viProcessStart r hs).2.1 rdram).vresN) 0 g0 j i
      (List.nodup_range _) (List.mem_range.2 hj) hi
  obtain ⟨w, hfil, hidx, hval⟩ := hsing
  refine ⟨w, ?_, hidx, hval⟩
  show ((viProcessRows (mkFrameCtx (viProcessStart r hs).2.1 rdram)
      (List.range (mkFrameCtx (viProcessStart r hs).2.1 rdram).vresN)
      (initFrameState d0 g0)).row.writes).filter _ = [w]
  rw [hser]
  simpa using hfil

/-- Small normal frame (h_start clamped, hres 16, vres 4, NTSC) used by
witnesses. -/
def regsSmall : ViRegs :=
  { status := 2, origin := 0x100000, width := 16, vCurrent := 0
    xScale := 0x200, yScale := 0x400
    hStartReg := (100 <<< 16) ||| 124
    vStartReg := (36 <<< 16) ||| 44
    vSync := 525 }

theorem vi_row_write_pattern_witness :
    (viProcessStart regsSmall ViHist.init).1 = .done true ∧
    0 < (viProcessStart regsSmall ViHist.init).2.1.vres.toNat ∧
    0 < (viProcessStart regsSmall ViHist.init).2.1.hres.toNat ∧
    ((∃ w : PixWrite,
      ((viProcessSerial (mkFrameCtx (viProcessStart regsSmall ViHist.init).2.1
            (fun _ => 128)) (fun _ => ⟨0, 0, 0, 0⟩) 0).row.writes).filter
          (fun w' => w'.idx =
            (viProcessStart regsSmall ViHist.init).2.1.prescalePtr +
              (viProcessStart regsSmall ViHist.init).2.1.linecount * 0 + 0) = [w] ∧
      w.idx = (viProcessStart regsSmall ViHist.init).2.1.prescalePtr +
        (viProcessStart regsSmall ViHist.init).2.1.linecount * 0 + 0 ∧
      w.val =
        (if (viProcessStart regsSmall ViHist.init).2.1.minhpass ≤ ((0 : ℕ) : ℤ) ∧
            ((0 : ℕ) : ℤ) < (viProcessStart regsSmall ViHist.init).2.1.maxhpass then
          (w.pr <<< 16) ||| (w.pg <<< 8) ||| w.pb
        else 0)) ∧
    (viProcessStart regsSmall ViHist.init).2.1.minhpass =
      (if (viProcessStart regsSmall ViHist.init).2.1.hStartClamped then 0 else 8) ∧
    (viProcessStart regsSmall ViHist.init).2.1.maxhpass =
      (if (viProcessStart regsSmall ViHist.init).2.1.hresClamped then
        (viProcessStart regsSmall ViHist.init).2.1.hres
       else (viProcessStart regsSmall ViHist.init).2.1.hres - 7)) :=
  ⟨by decide, by decide, by decide,
    vi_row_write_pattern regsSmall ViHist.init (fun _ => 128) (fun _ => ⟨0, 0, 0, 0⟩) 0 0 0
      (by decide) (by decide) (by decide)⟩

/-! ### Schedule independence with the gamma dither disabled -/

theorem gammaFilters_gst_nodither (c : ViCtrl) (r g b s : ℕ) (h : c.gammaDither ≠ 1) :
    (gammaFilters c r g b s).2 = s := by
  unfold gammaFilters
  simp [h]

theorem gammaFilters_fst_nodither (c : ViCtrl) (r g b s s' : ℕ) (h : c.gammaDither ≠ 1) :
    (gammaFilters c r g b s).1 = (gammaFilters c r g b s').1 := by
  unfold gammaFilters
  simp [h]

theorem refPixel_gst_nodither (F : FrameCtx) (pixels nextpixels fbs yfrac i g : ℕ)
    (h : F.ctrl.gammaDither ≠ 1) :
    (refPixel F pixels nextpixels fbs yfrac i g).2 = g := by
  unfold refPixel
  exact gammaFilters_gst_nodither _ _ _ _ _ h

theorem refPixel_fst_nodither (F : FrameCtx) (pixels nextpixels fbs yfrac i g g' : ℕ)
    (h : F.ctrl.gammaDither ≠ 1) :
    (refPixel F pixels nextpixels fbs yfrac i g).1 =
      (refPixel F pixels nextpixels fbs yfrac i g').1 := by
  unfold refPixel
  exact gammaFilters_fst_nodither _ _ _ _ _ _ h

theorem refGst_nodither (F : FrameCtx) (pixels nextpixels fbs yfrac g : ℕ)
    (h : F.ctrl.gammaDither ≠ 1) : ∀ i, refGst F pixels nextpixels fbs yfrac g i = g := by
  intro i
  induction i with
  | zero => rfl
  | succ i ih =>
    show (refPixel F pixels nextpixels fbs yfrac i
        (refGst F pixels nextpixels fbs yfrac g i)).2 = g
    rw [refPixel_gst_nodither F pixels nextpixels fbs yfrac i _ h, ih]

theorem refWriteAt_nodither (F : FrameCtx) (pixels nextpixels fbs yfrac dbase g g' i : ℕ)
    (h : F.ctrl.gammaDither ≠ 1) :
    refWriteAt F pixels nextpixels fbs yfrac dbase g i =
      refWriteAt F pixels nextpixels fbs yfrac dbase g' i := by
  unfold refWriteAt
  rw [refGst_nodither F pixels nextpixels fbs yfrac g h i,
    refGst_nodither F pixels nextpixels fbs yfrac g' h i]
  dsimp only
  rw [refPixel_fst_nodither F pixels nextpixels fbs yfrac i g g' h]

theorem refRowOfJ_gst_nodither (F : FrameCtx) (j fbs g : ℕ) (h : F.ctrl.gammaDither ≠ 1) :
    (refRowOfJ F j fbs g).2 = g := by
  unfold refRowOfJ
  rw [show refRow F (F.viWidth * ((F.yStart + j * F.yAdd) >>> 10))
      (F.viWidth + F.viWidth * ((F.yStart + j * F.yAdd) >>> 10)) fbs
      (((F.yStart + j * F.yAdd) >>> 5) % 32) (F.prescalePtr + F.linecount * j) g =
      _ from refRow_eq_map F _ _ _ _ _ _]
  exact refGst_nodither F _ _ _ _ g h F.hresN

theorem refRowOfJ_fst_nodither (F : FrameCtx) (j fbs g g' : ℕ) (h : F.ctrl.gammaDither ≠ 1) :
    (refRowOfJ F j fbs g).1 = (refRowOfJ F j fbs g').1 := by
  unfold refRowOfJ
  rw [refRow_fst_eq_map, refRow_fst_eq_map]
  apply List.map_congr_left
  intro i _
  exact refWriteAt_nodither F _ _ _ _ _ g g' i h

theorem rowFbs_yadd1024 (F : FrameCtx) (b j : ℕ) (h : F.yAdd = 0x400) :
    rowFbs F b j = b >>> 1 := by
  unfold rowFbs
  rw [if_neg]
  intro heq
  have he : F.yStart + (j + 1) * F.yAdd = (F.yStart + j * F.yAdd) + 1024 := by
    rw [h]; ring
  rw [he, Nat.shiftRight_eq_div_pow, Nat.shiftRight_eq_div_pow] at heq
  have hd : ((F.yStart + j * F.yAdd) + 1024) / 2 ^ 10 =
      (F.yStart + j * F.yAdd) / 2 ^ 10 + 1 := Nat.add_div_right _ (by norm_num)
  omega

/-- With the dither off and `y_add = 0x400`, `fetchbugstate` stays 0 and the
PRNG never advances, so the reference frame is just the concatenation of
the independent per-scanline write lists. -/
theorem refRows_nodither_flat (F : FrameCtx) (hd : F.ctrl.gammaDither ≠ 1)
    (hy : F.yAdd = 0x400) :
    ∀ (js : List ℕ) (g : ℕ),
      (refRows F js 0 g).1 = js.flatMap (fun j => (refRowOfJ F j 0 g).1) ∧
      (refRows F js 0 g).2.1 = 0 ∧ (refRows F js 0 g).2.2 = g := by
  intro js
  induction js with
  | nil => intro g; exact ⟨rfl, rfl, rfl⟩
  | cons a t ih =>
    intro g
    have hb : rowFbs F 0 a = 0 := by
      rw [rowFbs_yadd1024 F 0 a hy]
      rfl
    have hg : (refRowOfJ F a (rowFbs F 0 a) g).2 = g := refRowOfJ_gst_nodither F a _ g hd
    have h1 : refRows F (a :: t) 0 g =
        t.foldl (refRowsStep F) (refRowsStep F ([], 0, g) a) := rfl
    have h2 : refRowsStep F ([], 0, g) a =
        ((refRowOfJ F a (rowFbs F 0 a) g).1, rowFbs F 0 a,
          (refRowOfJ F a (rowFbs F 0 a) g).2) := rfl
    rw [h1, h2, hg, hb, refRows_acc]
    obtain ⟨iw, ifb, ig⟩ := ih g
    refine ⟨?_, ifb, ig⟩
    rw [iw, List.flatMap_cons]

theorem viProcessParallel_aux (F : FrameCtx) (n : ℕ) (d0 : ℤ → Ccvg)
    (hd : F.ctrl.gammaDither ≠ 1) (hy : F.yAdd = 0x400) :
    ∀ (ws : List ℕ) (L : List PixWrite) (g : ℕ),
      (ws.foldl (fun acc w =>
          let fs := viProcessRows F (stridedRows F.vresN w n) (initFrameState d0 acc.2)
          (acc.1 ++ fs.row.writes, fs.row.gst)) (L, g)) =
        (L ++ ws.flatMap (fun w => (stridedRows F.vresN w n).flatMap
            (fun j => (refRowOfJ F j 0 g).1)), g) := by
  intro ws
  induction ws with
  | nil => intro L g; simp
  | cons a t ih =>
    intro L g
    simp only [List.foldl_cons]
    obtain ⟨hok, hwr, hgst, hfbs⟩ :=
      viProcessRows_spec F (stridedRows F.vresN a n) (initFrameState d0 g)
    obtain ⟨rw1, rfb, rg⟩ := refRows_nodither_flat F hd hy (stridedRows F.vresN a n) g
    have hwr' : (viProcessRows F (stridedRows F.vresN a n) (initFrameState d0 g)).row.writes =
        (stridedRows F.vresN a n).flatMap (fun j => (refRowOfJ F j 0 g).1) := by
      rw [hwr]
      show ([] : List PixWrite) ++ (refRows F (stridedRows F.vresN a n) 0 g).1 = _
      rw [List.nil_append, rw1]
    have hgst' : (viProcessRows F (stridedRows F.vresN a n) (initFrameState d0 g)).row.gst = g := by
      rw [hgst]
      show (refRows F (stridedRows F.vresN a n) 0 g).2.2 = g
      exact rg
    rw [hwr', hgst', ih]
    rw [List.flatMap_cons, List.append_assoc]

theorem viProcessParallel_spec (F : FrameCtx) (n : ℕ) (d0 : ℤ → Ccvg) (g0 : ℕ)
    (hd : F.ctrl.gammaDither ≠ 1) (hy : F.yAdd = 0x400) :
    (viProcessParallel F n d0 g0).1 =
      ((List.range n).flatMap (fun w => stridedRows F.vresN w n)).flatMap
        (fun j => (refRowOfJ F j 0 g0).1) := by
  have h := viProcessParallel_aux F n d0 hd hy (List.range n) [] g0
  unfold viProcessParallel
  rw [h]
  rw [List.nil_append, List.flatMap_assoc]

theorem strided_perm (vres n : ℕ) (hn : 0 < n) :
    (List.range vres).Perm ((List.range n).flatMap (fun w => stridedRows vres w n)) := by
  have hnd : (((List.range n).flatMap (fun w => stridedRows vres w n))).Nodup := by
    rw [List.flatMap_def, List.nodup_flatten]
    constructor
    · intro l hl
      obtain ⟨w, _, rfl⟩ := List.mem_map.1 hl
      exact (List.nodup_range vres).filter _
    · rw [List.pairwise_map]
      apply (List.pairwise_lt_range n).imp
      intro a b hab
      intro j hja hjb
      have h1 := (List.mem_filter.1 hja).2
      have h2 := (List.mem_filter.1 hjb).2
      simp only [decide_eq_true_eq] at h1 h2
      omega
  refine (List.perm_ext_iff_of_nodup (List.nodup_range vres) hnd).2 ?_
  intro j
  constructor
  · intro hj
    refine List.mem_flatMap.2 ⟨j % n, List.mem_range.2 (Nat.mod_lt j hn), ?_⟩
    exact List.mem_filter.2 ⟨hj, by simp⟩
  · intro hj
    obtain ⟨w, _, hjf⟩ := List.mem_flatMap.1 hj
    exact (List.mem_filter.1 hjf).1

theorem writes_pairwise (F : FrameCtx) (hlc : F.hresN ≤ F.linecount) (g : ℕ) :
    ((List.range F.vresN).flatMap (fun j => (refRowOfJ F j 0 g).1)).Pairwise
      (fun a b => a.idx ≠ b.idx) := by
  rw [List.flatMap_def, List.pairwise_flatten]
  constructor
  · intro l hl
    obtain ⟨j, _, rfl⟩ := List.mem_map.1 hl
    unfold refRowOfJ
    rw [refRow_fst_eq_map, List.pairwise_map]
    apply (List.pairwise_lt_range _).imp
    intro a b hab
    rw [refWriteAt_idx, refWriteAt_idx]
    omega
  · rw [List.pairwise_map]
    apply (List.pairwise_lt_range _).imp
    intro a b hab x hx y hy
    unfold refRowOfJ at hx hy
    rw [refRow_fst_eq_map] at hx hy
    obtain ⟨i, hi, rfl⟩ := List.mem_map.1 hx
    obtain ⟨i', hi', rfl⟩ := List.mem_map.1 hy
    have hi2 : i < F.hresN := List.mem_range.1 hi
    have hi2' : i' < F.hresN := List.mem_range.1 hi'
    rw [refWriteAt_idx, refWriteAt_idx]
    intro he
    have := row_cell_inj F.linecount a i b i' (by omega) (by omega) (by omega)
    omega

/-- C1 (amended): with the gamma dither disabled (the process-wide PRNG is
then never consulted) and `y_add = 0x400` (so `fetchbugstate` is 0 on every
scanline under both schedules), running `vi_process` with one worker and
with `n > 1` workers — scanlines partitioned by `j mod n`, each worker with
its own local caches of arbitrary initial contents — leaves identical
contents in the prescale buffer. -/
theorem vi_parallel_transparent_nodither (F : FrameCtx) (n : ℕ) (d0 d1 : ℤ → Ccvg)
    (g0 : ℕ) (B : ℕ → ℕ) (idx : ℕ) (hn : 0 < n)
    (hd : F.ctrl.gammaDither ≠ 1) (hy : F.yAdd = 0x400) (hlc : F.hresN ≤ F.linecount) :
    applyWrites B (viProcessSerial F d0 g0).row.writes idx =
      applyWrites B (viProcessParallel F n d1 g0).1 idx := by
  obtain ⟨sflat, _, _⟩ := refRows_nodither_flat F hd hy (List.range F.vresN) g0
  have hserial : (viProcessSerial F d0 g0).row.writes =
      (List.range F.vresN).flatMap (fun j => (refRowOfJ F j 0 g0).1) := by
    have hs := (viProcessRows_spec F (List.range F.vresN) (initFrameState d0 g0)).2.1
    show (viProcessRows F (List.range F.vresN) (initFrameState d0 g0)).row.writes = _
    rw [hs]
    show ([] : List PixWrite) ++ (refRows F (List.range F.vresN) 0 g0).1 = _
    rw [List.nil_append, sflat]
  rw [hserial, viProcessParallel_spec F n d1 g0 hd hy]
  exact applyWrites_perm _ _
    (List.Perm.flatMap_right _ (strided_perm F.vresN n hn))
    (writes_pairwise F hlc g0) B idx

/-- A register state with the gamma dither enabled (`VI_STATUS = 6`:
type 2, gamma_dither bit set): 3 scanlines of 8 pixels each. -/
def regsDither : ViRegs :=
  { status := 6, origin := 0x100000, width := 16, vCurrent := 0
    xScale := 0x200, yScale := 0x400
    hStartReg := (100 <<< 16) ||| 116
    vStartReg := (36 <<< 16) ||| 42
    vSync := 525 }

/-- A register state with `y_add = 0x200` (so `fetchbugstate` decays over
successive scanlines instead of being 0 everywhere): 4 scanlines of 8
pixels, no dither. -/
def regsFbs : ViRegs :=
  { status := 2, origin := 0x100000, width := 16, vCurrent := 0
    xScale := 0x200, yScale := 0x200
    hStartReg := (100 <<< 16) ||| 116
    vStartReg := (36 <<< 16) ||| 44
    vSync := 525 }

/-- C1 counterexample: as claimed verbatim, the parallel run is NOT
transparent.  (1) With the gamma dither on (`regsDither`), the process-wide
PRNG is consulted in scanline order, so under 2 workers scanline 2 sees
PRNG state 8 instead of 16 and the pixel at prescale index 1920 differs.
(2) Even with the dither off, when `y_add ≠ 0x400` (`regsFbs`) each worker
recomputes `fetchbugstate` from 0 over only its own scanlines, so scanline
3 is fetched with `fetchbugstate = 0` instead of 1 and the pixel at
prescale index 2560 differs. -/
theorem vi_parallel_not_transparent_cex :
    (let F := mkFrameCtx (viProcessStart regsDither ViHist.init).2.1 (fun _ => 128)
     applyWrites (fun _ => 0) (viProcessSerial F (fun _ => ⟨0, 0, 0, 0⟩) 0).row.writes 1920 ≠
       applyWrites (fun _ => 0)
         (viProcessParallel F 2 (fun _ => ⟨0, 0, 0, 0⟩) 0).1 1920) ∧
    (let F := mkFrameCtx (viProcessStart regsFbs ViHist.init).2.1 (fun _ => 128)
     applyWrites (fun _ => 0) (viProcessSerial F (fun _ => ⟨0, 0, 0, 0⟩) 0).row.writes 2560 ≠
       applyWrites (fun _ => 0)
         (viProcessParallel F 2 (fun _ => ⟨0, 0, 0, 0⟩) 0).1 2560) := by
  constructor
  · decide
  · decide

/-- Witness for the amended C1 theorem at the concrete frame `regsSmall`
with 2 workers, different initial cache garbage per run, and prescale
index 1280. -/
theorem vi_parallel_transparent_nodither_witness :
    (0 : ℕ) < 2 ∧
    (mkFrameCtx (viProcessStart regsSmall ViHist.init).2.1
        (fun _ => 128)).ctrl.gammaDither ≠ 1 ∧
    (mkFrameCtx (viProcessStart regsSmall ViHist.init).2.1 (fun _ => 128)).yAdd = 0x400 ∧
    (mkFrameCtx (viProcessStart regsSmall ViHist.init).2.1 (fun _ => 128)).hresN ≤
      (mkFrameCtx (viProcessStart regsSmall ViHist.init).2.1 (fun _ => 128)).linecount ∧
    applyWrites (fun _ => 0)
        (viProcessSerial (mkFrameCtx (viProcessStart regsSmall ViHist.init).2.1
          (fun _ => 128)) (fun _ => ⟨0, 0, 0, 0⟩) 0).row.writes 1280 =
      applyWrites (fun _ => 0)
        (viProcessParallel (mkFrameCtx (viProcessStart regsSmall ViHist.init).2.1
          (fun _ => 128)) 2 (fun _ => ⟨1, 2, 3, 4⟩) 0).1 1280 :=
  ⟨by decide, by decide, by decide, by decide,
    vi_parallel_transparent_nodither _ 2 _ _ 0 _ 1280
      (by decide) (by decide) (by decide) (by decide)⟩

/-- With the dither off, the reference frame's writes and final
`fetchbugstate` do not depend on the initial PRNG state, and the PRNG
state is left unchanged (no `y_add` restriction). -/
theorem refRows_nodither (F : FrameCtx) (hd : F.ctrl.gammaDither ≠ 1) :
    ∀ (js : List ℕ) (b g g' : ℕ),
      (refRows F js b g).1 = (refRows F js b g').1 ∧
      (refRows F js b g).2.1 = (refRows F js b g').2.1 ∧
      (refRows F js b g).2.2 = g := by
  intro js
  induction js with
  | nil => intro b g g'; exact ⟨rfl, rfl, rfl⟩
  | cons a t ih =>
    intro b g g'
    have hg : (refRowOfJ F a (rowFbs F b a) g).2 = g := refRowOfJ_gst_nodither F a _ g hd
    have hg' : (refRowOfJ F a (rowFbs F b a) g').2 = g' := refRowOfJ_gst_nodither F a _ g' hd
    have h1 : refRows F (a :: t) b g =
        t.foldl (refRowsStep F) (refRowsStep F ([], b, g) a) := rfl
    have h1' : refRows F (a :: t) b g' =
        t.foldl (refRowsStep F) (refRowsStep F ([], b, g') a) := rfl
    have h2 : refRowsStep F ([], b, g) a =
        ((refRowOfJ F a (rowFbs F b a) g).1, rowFbs F b a,
          (refRowOfJ F a (rowFbs F b a) g).2) := rfl
    have h2' : refRowsStep F ([], b, g') a =
        ((refRowOfJ F a (rowFbs F b a) g').1, rowFbs F b a,
          (refRowOfJ F a (rowFbs F b a) g').2) := rfl
    rw [h1, h2, hg, refRows_acc, h1', h2', hg', refRows_acc]
    obtain ⟨iw, ifb, ig⟩ := ih (rowFbs F b a) g g'
    refine ⟨?_, ifb, ig⟩
    rw [iw, refRowOfJ_fst_nodither F a _ g g' hd]

/-- The normal-mode `vi_update` path (vi.c 844-894): run `vi_process_start`;
if it returns 0 (an error exit, a skip, or `validh == 0`) nothing touches
the prescale buffer; otherwise run the serial `vi_process` and apply its
writes.  Returns the new prescale buffer, the updated cross-frame history
statics, and the PRNG state. -/
def viUpdate (r : ViRegs) (rdram : ℤ → ℕ) (d0 : ℤ → Ccvg) (B : ℕ → ℕ)
    (hs : ViHist) (g : ℕ) : (ℕ → ℕ) × ViHist × ℕ :=
  if (viProcessStart r hs).1 = .done true then
    (applyWrites B
        (viProcessSerial (mkFrameCtx (viProcessStart r hs).2.1 rdram) d0 g).row.writes,
      (viProcessStart r hs).2.2,
      (viProcessSerial (mkFrameCtx (viProcessStart r hs).2.1 rdram) d0 g).row.gst)
  else (B, (viProcessStart r hs).2.2, g)

/-- C7 (amended): with `gamma_dither_enable` off, two successive `vi_update`
calls with identical register contents and the same lowerfield history (a
history the first call leaves unchanged) produce identical prescale buffer
contents — the second frame repeats exactly the first frame's writes, even
with different garbage in the uninitialized local caches. -/
theorem vi_update_idempotent_nodither (r : ViRegs) (rdram : ℤ → ℕ) (d0 d1 : ℤ → Ccvg)
    (B : ℕ → ℕ) (hs : ViHist) (g : ℕ) (idx : ℕ)
    (hd : (decodeCtrl r.status).gammaDither ≠ 1)
    (hfix : (viProcessStart r hs).2.2 = hs) :
    (viUpdate r rdram d1 (viUpdate r rdram d0 B hs g).1
        (viUpdate r rdram d0 B hs g).2.1 (viUpdate r rdram d0 B hs g).2.2).1 idx =
      (viUpdate r rdram d0 B hs g).1 idx := by
  by_cases h : (viProcessStart r hs).1 = .done true
  · have hW : ∀ (d : ℤ → Ccvg) (g' : ℕ),
        (viProcessSerial (mkFrameCtx (viProcessStart r hs).2.1 rdram) d g').row.writes =
          (refRows (mkFrameCtx (viProcessStart r hs).2.1 rdram)
            (List.range (mkFrameCtx (viProcessStart r hs).2.1 rdram).vresN) 0 g').1 := by
      intro d g'
      show (viProcessRows (mkFrameCtx (viProcessStart r hs).2.1 rdram)
          (List.range (mkFrameCtx (viProcessStart r hs).2.1 rdram).vresN)
          (initFrameState d g')).row.writes = _
      rw [(viProcessRows_spec (mkFrameCtx (viProcessStart r hs).2.1 rdram)
        (List.range (mkFrameCtx (viProcessStart r hs).2.1 rdram).vresN)
        (initFrameState d g')).2.1]
      show ([] : List PixWrite) ++ _ = _
      rw [List.nil_append]
      rfl
    have hG : (viProcessSerial (mkFrameCtx (viProcessStart r hs).2.1 rdram) d0 g).row.gst
        = g := by
      show (viProcessRows (mkFrameCtx (viProcessStart r hs).2.1 rdram)
          (List.range (mkFrameCtx (viProcessStart r hs).2.1 rdram).vresN)
          (initFrameState d0 g)).row.gst = g
      rw [(viProcessRows_spec (mkFrameCtx (viProcessStart r hs).2.1 rdram)
        (List.range (mkFrameCtx (viProcessStart r hs).2.1 rdram).vresN)
        (initFrameState d0 g)).2.2.1]
      show (refRows (mkFrameCtx (viProcessStart r hs).2.1 rdram)
          (List.range (mkFrameCtx (viProcessStart r hs).2.1 rdram).vresN) 0 g).2.2 = g
      exact (refRows_nodither (mkFrameCtx (viProcessStart r hs).2.1 rdram) hd
        (List.range (mkFrameCtx (viProcessStart r hs).2.1 rdram).vresN) 0 g g).2.2
    have hu1 : viUpdate r rdram d0 B hs g =
        (applyWrites B
            (viProcessSerial (mkFrameCtx (viProcessStart r hs).2.1 rdram) d0 g).row.writes,
          hs,
          (viProcessSerial (mkFrameCtx (viProcessStart r hs).2.1 rdram) d0 g).row.gst) := by
      unfold viUpdate
      rw [if_pos h, hfix]
    rw [hu1]
    show (viUpdate r rdram d1
        (applyWrites B
          (viProcessSerial (mkFrameCtx (viProcessStart r hs).2.1 rdram) d0 g).row.writes)
        hs
        (viProcessSerial (mkFrameCtx (viProcessStart r hs).2.1 rdram) d0 g).row.gst).1 idx =
      applyWrites B
        (viProcessSerial (mkFrameCtx (viProcessStart r hs).2.1 rdram) d0 g).row.writes idx
    unfold viUpdate
    rw [if_pos h]
    show applyWrites
        (applyWrites B
          (viProcessSerial (mkFrameCtx (viProcessStart r hs).2.1 rdram) d0 g).row.writes)
        (viProcessSerial (mkFrameCtx (viProcessStart r hs).2.1 rdram) d1
          (viProcessSerial (mkFrameCtx (viProcessStart r hs).2.1 rdram) d0 g).row.gst).row.writes
        idx =
      applyWrites B
        (viProcessSerial (mkFrameCtx (viProcessStart r hs).2.1 rdram) d0 g).row.writes idx
    rw [hG, hW d1 g, hW d0 g]
    exact applyWrites_self B _ idx
  · have hu1 : viUpdate r rdram d0 B hs g = (B, hs, g) := by
      unfold viUpdate
      rw [if_neg h, hfix]
    rw [hu1]
    show (viUpdate r rdram d1 B hs g).1 idx = B idx
    unfold viUpdate
    rw [if_neg h]

/-- Like `regsDither` but with 2 scanlines of 8 pixels, so one frame
advances the process-wide PRNG by 16 (not a multiple of 3). -/
def regsDither2 : ViRegs :=
  { status := 6, origin := 0x100000, width := 16, vCurrent := 0
    xScale := 0x200, yScale := 0x400
    hStartReg := (100 <<< 16) ||| 116
    vStartReg := (36 <<< 16) ||| 40
    vSync := 525 }

/-- C7 counterexample: with `gamma_dither_enable = 1` (`regsDither2`) the
claim is false.  The history is a fixed point (same lowerfield history,
identical registers), yet the second `vi_update` starts the gamma dither
PRNG at 16 instead of 0, so the pixel at prescale index 640 is written
128 instead of 127 in the red channel. -/
theorem vi_update_not_idempotent_cex :
    (viProcessStart regsDither2 ViHist.init).2.2 = ViHist.init ∧
    (viUpdate regsDither2 (fun _ => 128) (fun _ => ⟨0, 0, 0, 0⟩)
        (viUpdate regsDither2 (fun _ => 128) (fun _ => ⟨0, 0, 0, 0⟩) (fun _ => 0)
          ViHist.init 0).1
        (viUpdate regsDither2 (fun _ => 128) (fun _ => ⟨0, 0, 0, 0⟩) (fun _ => 0)
          ViHist.init 0).2.1
        (viUpdate regsDither2 (fun _ => 128) (fun _ => ⟨0, 0, 0, 0⟩) (fun _ => 0)
          ViHist.init 0).2.2).1 640 ≠
      (viUpdate regsDither2 (fun _ => 128) (fun _ => ⟨0, 0, 0, 0⟩) (fun _ => 0)
        ViHist.init 0).1 640 := by
  constructor
  · decide
  · decide

/-- Witness for the amended C7 theorem: `regsSmall` (dither off), the
`vi_init` history (which the first call leaves unchanged), different cache
garbage per call, prescale index 640. -/
theorem vi_update_idempotent_nodither_witness :
    (decodeCtrl regsSmall.status).gammaDither ≠ 1 ∧
    (viProcessStart regsSmall ViHist.init).2.2 = ViHist.init ∧
    (viUpdate regsSmall (fun _ => 128) (fun _ => ⟨1, 2, 3, 4⟩)
        (viUpdate regsSmall (fun _ => 128) (fun _ => ⟨0, 0, 0, 0⟩) (fun _ => 0)
          ViHist.init 0).1
        (viUpdate regsSmall (fun _ => 128) (fun _ => ⟨0, 0, 0, 0⟩) (fun _ => 0)
          ViHist.init 0).2.1
        (viUpdate regsSmall (fun _ => 128) (fun _ => ⟨0, 0, 0, 0⟩) (fun _ => 0)
          ViHist.init 0).2.2).1 640 =
      (viUpdate regsSmall (fun _ => 128) (fun _ => ⟨0, 0, 0, 0⟩) (fun _ => 0)
        ViHist.init 0).1 640 :=
  ⟨by decide, by decide,
    vi_update_idempotent_nodither regsSmall (fun _ => 128) (fun _ => ⟨0, 0, 0, 0⟩)
      (fun _ => ⟨1, 2, 3, 4⟩) (fun _ => 0) ViHist.init 0 640 (by decide) (by decide)⟩
